import Mathlib

/-!
swupd-client: configuration resolution and timing (`src/globals.c`) and the
hash dump tool (`src/hashdump.c`)

A shallow embedding of the configuration setters, `init_globals`,
`free_globals` and the timing list of `globals.c`, and of `hashdump_main`,
with the properties of them that the specification states.

Conventions of the embedding

* A C string is the list of its characters before the terminating NUL.
* A `char *` global that is only ever released right before it is assigned
  again is an `Option CStr` (`none` is `NULL`).  `path_prefix` is the one
  global the code can leave pointing at released storage, so it has the
  three-valued type `Ptr`.
* The global variables are passed explicitly as a `Globals` record.
* The build-time configuration (`config.h`) and what the operating system
  answers (current directory, `stat`, file contents) are the fields of `Env`.
* A setter returns `none` where the C code has undefined behaviour (released
  storage is read or released again, or a null pointer is formatted with `%s`).
* `string_or_die` is taken to succeed (it aborts the process otherwise).
-/

namespace Swupd

/-- A C string: the characters before the terminating NUL. -/
abbrev CStr := List Char

/-- The value of the `char *path_prefix` global. -/
inductive Ptr where
  /-- `NULL` -/
  | null
  /-- a pointer to a live string -/
  | str (s : CStr)
  /-- a non-null pointer whose storage has been passed to `free` -/
  | freed
  deriving DecidableEq, Repr

/-- The `char *` globals of `globals.c`. -/
structure Globals where
  format_string : Option CStr
  path_prefix : Ptr
  mounted_dirs : Option CStr
  bundle_to_add : Option CStr
  state_dir : Option CStr
  version_url : Option CStr
  content_url : Option CStr
  cert_path : Option CStr
  deriving DecidableEq, Repr

/-- The globals as they are when the program starts: all `NULL`. -/
def Globals.init : Globals :=
  { format_string := none, path_prefix := Ptr.null, mounted_dirs := none,
    bundle_to_add := none, state_dir := none, version_url := none,
    content_url := none, cert_path := none }

/-- What `fopen` followed by reading finds at a path. -/
inductive File where
  /-- `fopen` returns `NULL` -/
  | absent
  /-- the file opens and reading it fails (`ferror`) -/
  | unreadable
  /-- the file opens and holds these bytes -/
  | data (bytes : List Char)
  deriving DecidableEq, Repr

/-- Build-time configuration and the answers of the operating system. -/
structure Env where
  /-- `STATE_DIR` of `config.h` -/
  STATE_DIR : CStr
  /-- `FORMATID` of `config.h`, when defined -/
  FORMATID : Option CStr
  /-- `VERSIONURL` of `config.h`, when defined -/
  VERSIONURL : Option CStr
  /-- `CONTENTURL` of `config.h`, when defined -/
  CONTENTURL : Option CStr
  /-- whether `SIGNATURES` is defined -/
  SIGNATURES : Bool
  /-- `CERT_PATH` of `config.h` -/
  CERT_PATH : CStr
  /-- the result of `get_current_dir_name()`, `none` for `NULL` -/
  cwd : Option CStr
  /-- whether `stat` succeeds on the path and reports a directory -/
  is_dir : CStr → Bool
  /-- what is found at a path when it is opened for reading -/
  file : CStr → File

/-- `LINE_MAX` of `<limits.h>` (its value with glibc). -/
def LINE_MAX : Nat := 2048

def default_version_url_path : CStr := "/usr/share/defaults/swupd/versionurl".toList
def default_content_url_path : CStr := "/usr/share/defaults/swupd/contenturl".toList
def default_format_path : CStr := "/usr/share/defaults/swupd/format".toList

/-- The `char **global` arguments that the source passes around. -/
inductive GlobalRef where
  | format_string
  | version_url
  | content_url
  deriving DecidableEq, Repr

/-- Reading through a `char **global`. -/
def Globals.deref (g : Globals) : GlobalRef → Option CStr
  | GlobalRef.format_string => g.format_string
  | GlobalRef.version_url => g.version_url
  | GlobalRef.content_url => g.content_url

/-- The assignment `*global = v`. -/
def Globals.assign (g : Globals) (r : GlobalRef) (v : CStr) : Globals :=
  match r with
  | GlobalRef.format_string => { g with format_string := some v }
  | GlobalRef.version_url => { g with version_url := some v }
  | GlobalRef.content_url => { g with content_url := some v }

/-- The characters `fgets` stores when it may store at most `n` of them:
it stops after a newline, at the end of the file, or when `n` are stored. -/
def fgets_chars : Nat → List Char → List Char
  | 0, _ => []
  | _, [] => []
  | n + 1, c :: cs => if c = '\n' then [c] else c :: fgets_chars n cs

/-- The call `fgets(line, size, file)` on a file positioned at its start:
`none` is `NULL` (nothing could be read), otherwise the buffer contents. -/
def fgets (size : Nat) : File → Option (List Char)
  | File.absent => none
  | File.unreadable => none
  | File.data bytes =>
    if fgets_chars (size - 1) bytes = [] then none
    else some (fgets_chars (size - 1) bytes)

/-- The C string a buffer holds: its characters before the first NUL. -/
def c_string (buf : List Char) : CStr :=
  buf.takeWhile (fun c => c ≠ '\x00')

/-- The effect of `c = strchr(line, '\n'); if (c) *c = '\0';`. -/
def strip_newline (line : CStr) : CStr :=
  line.takeWhile (fun c => c ≠ '\n')

/-- The source function `set_default_value_from_path`: `-1` when the file
under `path_prefix` cannot be opened or read, otherwise `0` with the first
line stored in `*global`. -/
def set_default_value_from_path (env : Env) (global : GlobalRef) (path : CStr)
    (g : Globals) : Option (Int × Globals) :=
  match Globals.path_prefix g with
  | Ptr.null => none
  | Ptr.freed => none
  | Ptr.str pp =>
    let rel_path := pp ++ path
    match env.file rel_path with
    | File.absent => some (-1, g)
    | f =>
      match fgets LINE_MAX f with
      | none => some (-1, g)
      | some line => some (0, g.assign global (strip_newline (c_string line)))

/-- The source function `set_url`. -/
def set_url (env : Env) (global : GlobalRef) (url : Option CStr) (path : CStr)
    (g : Globals) : Option (Int × Globals) :=
  match url with
  | some u => some (0, g.assign global u)
  | none =>
    match g.deref global with
    | some _ => some (0, g)
    | none => set_default_value_from_path env global path g

/-- The source function `set_content_url`. -/
def set_content_url (env : Env) (url : Option CStr) (g : Globals) :
    Option (Int × Globals) :=
  match g.content_url with
  | some _ => some (0, g)
  | none => set_url env GlobalRef.content_url url default_content_url_path g

/-- The source function `set_version_url`. -/
def set_version_url (env : Env) (url : Option CStr) (g : Globals) :
    Option (Int × Globals) :=
  match g.version_url with
  | some _ => some (0, g)
  | none => set_url env GlobalRef.version_url url default_version_url_path g

/-- `isspace` in the C locale. -/
def isspace (c : Char) : Bool :=
  c = ' ' || c = '\t' || c = '\n' || c = '\x0b' || c = '\x0c' || c = '\r'

/-- `ULLONG_MAX` for a 64-bit `unsigned long long`. -/
def ULLONG_MAX : Nat := 2 ^ 64 - 1

/-- `ERANGE` of `<errno.h>`. -/
def ERANGE : Int := 34

/-- The exact value of the run of decimal digits at the start of a string,
continuing from the value `acc` of the digits already seen. -/
def digits_value (acc : Nat) : CStr → Nat
  | [] => acc
  | c :: cs =>
    if c.isDigit then digits_value (acc * 10 + (c.toNat - '0'.toNat)) cs else acc

/-- The C library function `strtoull(str, NULL, 10)` entered with `errno = 0`:
the value returned and the value of `errno` afterwards.  White space is
skipped, one sign is accepted, the digits that follow are converted and the
rest of the string is ignored; without digits the value is 0; a value that
does not fit is `ULLONG_MAX` with `ERANGE`; after `-` the value is negated
as an `unsigned long long`. -/
def strtoull (str : CStr) : Nat × Int :=
  let s := str.dropWhile isspace
  let neg := s.head? = some '-'
  let ds := if s.head? = some '-' ∨ s.head? = some '+' then s.tail else s
  let v := digits_value 0 ds
  if v > ULLONG_MAX then (ULLONG_MAX, ERANGE)
  else if neg then ((2 ^ 64 - v) % 2 ^ 64, 0)
  else (v, 0)

/-- The source function `is_valid_integer_format`. -/
def is_valid_integer_format (str : CStr) : Bool :=
  let (version, errno) := strtoull str
  if errno < 0 ∨ version = 0 then false else true

/-- The source function `set_state_dir`. -/
def set_state_dir (env : Env) (path : Option CStr) (g : Globals) : Bool × Globals :=
  match path with
  | some p =>
    if p.head? ≠ some '/' then (false, g)
    else (true, { g with state_dir := some p })
  | none =>
    match g.state_dir with
    | some _ => (true, g)
    | none => (true, { g with state_dir := some env.STATE_DIR })

/-- The source function `set_format_string`. -/
def set_format_string (env : Env) (userinput : Option CStr) (g : Globals) :
    Option (Bool × Globals) :=
  match g.format_string with
  | some _ => some (true, g)
  | none =>
    match userinput with
    | some u =>
      if u = "staging".toList then some (true, { g with format_string := some u })
      else if !is_valid_integer_format u then some (false, g)
      else some (true, { g with format_string := some u })
    | none =>
      match set_default_value_from_path env GlobalRef.format_string default_format_path g with
      | none => none
      | some (ret, g1) =>
        if ret < 0 then some (false, g1)
        else
          match g1.format_string with
          | none => none
          | some f => if !is_valid_integer_format f then some (false, g1) else some (true, g1)

/-- The tail of `set_path_prefix`: `stat(path_prefix)` and the `S_ISDIR` test,
with `path_prefix` holding `p`. -/
def stat_path_prefix (env : Env) (p : CStr) (g : Globals) : Bool × Globals :=
  if env.is_dir p then (true, g) else (false, g)

/-- The source function `set_path_prefix`. -/
def set_path_prefix (env : Env) (path : Option CStr) (g : Globals) :
    Option (Bool × Globals) :=
  match path with
  | some p =>
    match Globals.path_prefix g with
    | Ptr.freed => none
    | old =>
      let resolved : Option CStr :=
        if p.head? ≠ some '/' then
          match env.cwd with
          | none => none
          | some cwd => some (cwd ++ '/' :: p)
        else some p
      match resolved with
      | none =>
        some (false, { g with path_prefix := if old = Ptr.null then Ptr.null else Ptr.freed })
      | some tmp =>
        let tmp1 := if tmp.length = 0 ∨ tmp.getLast? ≠ some '/' then tmp ++ ['/'] else tmp
        some ( stat_path_prefix env tmp1 { g with path_prefix := Ptr.str tmp1 })
  | none =>
    match Globals.path_prefix g with
    | Ptr.null => some ( stat_path_prefix env ['/'] { g with path_prefix := Ptr.str ['/'] })
    | Ptr.freed => some (true, g)
    | Ptr.str _ => some (true, g)

/-- The source function `set_cert_path`. -/
def set_cert_path (env : Env) (path : Option CStr) (g : Globals) : Globals :=
  if env.SIGNATURES then
    match g.cert_path with
    | some _ => g
    | none =>
      match path with
      | some p => { g with cert_path := some p }
      | none => { g with cert_path := some env.CERT_PATH }
  else g

/-- Modelled from the spec: `set_local_download`, which is not part of
`globals.c`, derives the flag `local_download` from the two urls once both
are fixed; it changes none of the string globals tracked here. -/
def set_local_download (g : Globals) : Globals := g

/-- How a call of `init_globals` ends. -/
inductive InitResult where
  /-- it returns this value -/
  | returned (ret : Bool) (g : Globals)
  /-- it calls `exit(EXIT_FAILURE)` -/
  | exit_failure (g : Globals)
  /-- it runs into undefined behaviour -/
  | undefined
  deriving DecidableEq, Repr

/-- The version-url step of `init_globals`, with the rest of the function as
the continuation `k`. -/
def init_version_url (env : Env) (g : Globals) (k : Globals → InitResult) : InitResult :=
  match set_version_url env none g with
  | none => InitResult.undefined
  | some (r, g1) =>
    if r ≠ 0 then
      match env.VERSIONURL with
      | some u =>
        match set_version_url env (some u) g1 with
        | none => InitResult.undefined
        | some (ret, g2) => if ret ≠ 0 then InitResult.exit_failure g2 else k g2
      | none => InitResult.exit_failure g1
    else k g1

/-- The content-url step of `init_globals`, with the rest of the function as
the continuation `k`. -/
def init_content_url (env : Env) (g : Globals) (k : Globals → InitResult) : InitResult :=
  match set_content_url env none g with
  | none => InitResult.undefined
  | some (r, g1) =>
    if r ≠ 0 then
      match env.CONTENTURL with
      | some u =>
        match set_content_url env (some u) g1 with
        | none => InitResult.undefined
        | some (ret, g2) => if ret ≠ 0 then InitResult.exit_failure g2 else k g2
      | none => InitResult.exit_failure g1
    else k g1

/-- The format step of `init_globals`, with the rest of the function as the
continuation `k`. -/
def init_format_string (env : Env) (g : Globals) (k : Globals → InitResult) : InitResult :=
  match set_format_string env none g with
  | none => InitResult.undefined
  | some (ok, g1) =>
    if !ok then
      match env.FORMATID with
      | some f =>
        match set_format_string env (some f) g1 with
        | none => InitResult.undefined
        | some (_, g2) => k g2
      | none => InitResult.exit_failure g1
    else k g1

/-- The part of `init_globals` that follows the resolution of `path_prefix`:
format, version url, content url, and the certificate path when `SIGNATURES`
is defined. -/
def init_defaults (env : Env) (g : Globals) : InitResult :=
  init_format_string env g fun g3 =>
  init_version_url env g3 fun g4 =>
  init_content_url env g4 fun g5 =>
  InitResult.returned true
    (if env.SIGNATURES then set_cert_path env none (set_local_download g5)
     else set_local_download g5)

/-- The source function `init_globals`.  The timestamp `start_time` and the
flag `local_download` are not among the globals tracked here. -/
def init_globals (env : Env) (g : Globals) : InitResult :=
  match set_state_dir env none g with
  | (false, g1) => InitResult.returned false g1
  | (true, g1) =>
    match set_path_prefix env none g1 with
    | none => InitResult.undefined
    | some (false, g2) => InitResult.returned false g2
    | some (true, g2) => init_defaults env g2

/-- The part of a default file that is kept as the value: what precedes the
first newline or NUL among its first `LINE_MAX - 1` bytes. -/
def kept_line (bytes : List Char) : CStr :=
  (bytes.take (LINE_MAX - 1)).takeWhile (fun c => c != '\n' && c != '\x00')

/-- The precedence the specification gives for a url: the value set
explicitly beforehand, else the kept line of the default file when that file
can be read and is not empty, else the compile-time constant (`none` when
nothing is available). -/
def resolved_url (explicit : Option CStr) (file : File) (constant : Option CStr) :
    Option CStr :=
  match explicit with
  | some v => some v
  | none =>
    match file with
    | File.data (b :: bs) => some (kept_line (b :: bs))
    | _ => constant

/-! ## Concrete environments for the examples -/

/-- A system whose root holds the directories `/usr` and `/home/user/tmp`,
with no default files, built with format id 3 and without default urls;
the current directory is `/home/user`. -/
def env_plain : Env :=
  { STATE_DIR := "/var/lib/swupd".toList
    FORMATID := some "3".toList
    VERSIONURL := none
    CONTENTURL := none
    SIGNATURES := false
    CERT_PATH := "/usr/share/clear/update-ca/Swupd_Root.pem".toList
    cwd := some "/home/user".toList
    is_dir := fun p =>
      p = "/".toList || p = "/usr".toList || p = "/usr/".toList || p = "/usr//".toList
        || p = "/home/user/tmp".toList || p = "/home/user/tmp/".toList
    file := fun _ => File.absent }

/-- A system built with format id 3 and default urls whose format default
file, under the root, holds the line "0". -/
def env_format_zero : Env :=
  { STATE_DIR := "/var/lib/swupd".toList
    FORMATID := some "3".toList
    VERSIONURL := some "https://example.com/update".toList
    CONTENTURL := some "https://example.com/update".toList
    SIGNATURES := false
    CERT_PATH := "/usr/share/clear/update-ca/Swupd_Root.pem".toList
    cwd := some "/root".toList
    is_dir := fun p => p = "/".toList
    file := fun p =>
      if p = "//usr/share/defaults/swupd/format".toList then File.data "0\n".toList
      else File.absent }

/-- A system whose version-url default file, under the root, holds one line
of 3000 letters `a` and a newline. -/
def env_long_url : Env :=
  { STATE_DIR := "/var/lib/swupd".toList
    FORMATID := some "3".toList
    VERSIONURL := none
    CONTENTURL := some "https://example.com/update".toList
    SIGNATURES := false
    CERT_PATH := "/usr/share/clear/update-ca/Swupd_Root.pem".toList
    cwd := some "/root".toList
    is_dir := fun p => p = "/".toList
    file := fun p =>
      if p = "//usr/share/defaults/swupd/versionurl".toList then
        File.data (List.replicate 3000 'a' ++ ['\n'])
      else File.absent }

/-- The states the setters can produce from the initial state over the fixed
environment `env` when every call of `set_path_prefix` made so far succeeded
(the callers of `set_path_prefix` give up when it fails). -/
inductive Reachable (env : Env) : Globals → Prop where
  | init : Reachable env Globals.init
  | state_dir (path : Option CStr) (ret : Bool) (g g1 : Globals) :
      Reachable env g → set_state_dir env path g = (ret, g1) → Reachable env g1
  | format_string (value : Option CStr) (ret : Bool) (g g1 : Globals) :
      Reachable env g → set_format_string env value g = some (ret, g1) → Reachable env g1
  | version_url (url : Option CStr) (ret : Int) (g g1 : Globals) :
      Reachable env g → set_version_url env url g = some (ret, g1) → Reachable env g1
  | content_url (url : Option CStr) (ret : Int) (g g1 : Globals) :
      Reachable env g → set_content_url env url g = some (ret, g1) → Reachable env g1
  | cert_path (path : Option CStr) (g : Globals) :
      Reachable env g → Reachable env (set_cert_path env path g)
  | prefix_ok (path : Option CStr) (g g1 : Globals) :
      Reachable env g → set_path_prefix env path g = some (true, g1) → Reachable env g1

/-- The source function `free_globals`.  `free(NULL)` does nothing; releasing
a `path_prefix` that was already released is undefined. -/
def free_globals (g : Globals) : Option Globals :=
  match Globals.path_prefix g with
  | Ptr.freed => none
  | _ =>
    some { content_url := none, version_url := none, path_prefix := Ptr.null,
           format_string := none, mounted_dirs := none, state_dir := none,
           bundle_to_add := none, cert_path := g.cert_path }

/-- A system built with format id 3 and default urls whose format default
file, under the root, holds the line "staging". -/
def env_format_staging : Env :=
  { STATE_DIR := "/var/lib/swupd".toList
    FORMATID := some "3".toList
    VERSIONURL := some "https://example.com/update".toList
    CONTENTURL := some "https://example.com/update".toList
    SIGNATURES := false
    CERT_PATH := "/usr/share/clear/update-ca/Swupd_Root.pem".toList
    cwd := some "/root".toList
    is_dir := fun p => p = "/".toList
    file := fun p =>
      if p = "//usr/share/defaults/swupd/format".toList then File.data "staging\n".toList
      else File.absent }

/-- A system built with `SIGNATURES`, format id 3 and default urls, without
default files. -/
def env_signed : Env :=
  { STATE_DIR := "/var/lib/swupd".toList
    FORMATID := some "3".toList
    VERSIONURL := some "https://example.com/update".toList
    CONTENTURL := some "https://example.com/update".toList
    SIGNATURES := true
    CERT_PATH := "/usr/share/clear/update-ca/Swupd_Root.pem".toList
    cwd := some "/root".toList
    is_dir := fun p => p = "/".toList
    file := fun _ => File.absent }

/-! ## The timing list (`grabtime_start`, `grabtime_stop`, `print_time_stats`)

The elements of `*head` are a Lean list whose first element is `TAILQ_FIRST`,
the interval started last.  `init_timelist` returns the head structure by
value, so the pointer `tqh_last` of the result still points into the frame of
`init_timelist`; such a head is `Timelist.fresh`, and reading through its
`tqh_last` (`TAILQ_LAST`, `TAILQ_FOREACH_REVERSE`) is undefined.  The first
insertion, and the removal of the last element, set `tqh_last` to a live
address.  The readings of `clock_gettime` and the outcome of `calloc` are
arguments of the calls. -/

/-- A `struct timespec`. -/
structure Timespec where
  tv_sec : Int
  tv_nsec : Int
  deriving DecidableEq, Repr

/-- A `struct time`, one element of the timing list. -/
structure Time where
  name : CStr
  rawstart : Timespec
  procstart : Timespec
  rawstop : Timespec
  procstop : Timespec
  complete : Bool
  deriving DecidableEq, Repr

/-- A `timelist` head structure. -/
inductive Timelist where
  /-- as `init_timelist` returns it: `tqh_first` is `NULL` and `tqh_last`
  points into the frame of `init_timelist`, which has returned -/
  | fresh
  /-- a head whose `tqh_last` is a live address, with its elements -/
  | live (items : List Time)
  deriving DecidableEq, Repr

/-- The elements of a list, `TAILQ_FIRST` first. -/
def Timelist.items : Timelist → List Time
  | Timelist.fresh => []
  | Timelist.live l => l

/-- The global `verbose_time` together with the list `*head`. -/
structure Timing where
  verbose_time : Bool
  head : Timelist
  deriving DecidableEq, Repr

/-- The source function `init_timelist`. -/
def init_timelist : Timelist := Timelist.fresh

/-- The loop of `alloc_time` that removes every element: a list that had
elements ends with `tqh_last` set by the last `TAILQ_REMOVE`, an empty one is
not touched. -/
def Timelist.emptied : Timelist → Timelist
  | Timelist.fresh => Timelist.fresh
  | Timelist.live _ => Timelist.live []

/-- The element `calloc` returns: all fields zero. -/
def Time.zero : Time :=
  { name := [], rawstart := ⟨0, 0⟩, procstart := ⟨0, 0⟩, rawstop := ⟨0, 0⟩,
    procstop := ⟨0, 0⟩, complete := false }

/-- The source function `alloc_time`; `calloc_ok` tells whether `calloc`
returned memory.  On failure the list is emptied and `verbose_time` cleared. -/
def alloc_time (calloc_ok : Bool) (s : Timing) : Option Time × Timing :=
  if calloc_ok then (some Time.zero, s)
  else (none, { verbose_time := false, head := s.head.emptied })

/-- The source function `grabtime_start`; `raw` and `proc` are the readings
of `CLOCK_MONOTONIC_RAW` and `CLOCK_PROCESS_CPUTIME_ID`. -/
def grabtime_start (calloc_ok : Bool) (raw proc : Timespec) (name : CStr) (s : Timing) :
    Timing :=
  if s.verbose_time = false then s
  else
    match alloc_time calloc_ok s with
    | (none, s1) => s1
    | (some t, s1) =>
      ⟨s1.verbose_time, Timelist.live
        ({ t with rawstart := raw, procstart := proc, name := name, complete := false }
          :: s1.head.items)⟩

/-- The loop `TAILQ_FOREACH(t, head, times)` of `grabtime_stop`, from the
first element on: every element that is not complete gets the next pair of
clock readings as its stop stamps and is marked complete.  `k` counts the
pairs of readings already taken. -/
def stop_foreach (now : Nat → Timespec × Timespec) : Nat → List Time → List Time
  | _, [] => []
  | k, t :: ts =>
    if t.complete != true then
      { t with rawstop := (now k).1, procstop := (now k).2, complete := true }
        :: stop_foreach now (k + 1) ts
    else t :: stop_foreach now k ts

/-- The source function `grabtime_stop`; `now k` is the `k`-th pair of clock
readings taken during the call.  `none` is the read of `t->complete` through
the null pointer that `TAILQ_FIRST` gives for an empty list. -/
def grabtime_stop (now : Nat → Timespec × Timespec) (s : Timing) : Option Timing :=
  if s.verbose_time = false then some s
  else
    match s.head.items with
    | [] => none
    | t :: ts =>
      if t.complete = true then
        some { s with head := Timelist.live (stop_foreach now 0 (t :: ts)) }
      else
        some ⟨s.verbose_time, Timelist.live
          ({ t with rawstop := (now 0).1, procstop := (now 0).2, complete := true } :: ts)⟩

/-- A line written to standard error by `print_time_stats`. -/
inductive Line where
  /-- "Raw elapsed time stats:" -/
  | raw_header
  /-- "CPU process time stats:" -/
  | cpu_header
  /-- the line of one interval: the value `delta` and the name -/
  | stat (delta : ℚ) (name : CStr)
  deriving DecidableEq

/-- The value `delta` of `print_time_stats`, as an exact rational (the C code
computes it in `double`). -/
def delta (start stop : Timespec) : ℚ :=
  ((stop.tv_sec - start.tv_sec : Int) : ℚ) + (stop.tv_nsec : ℚ) / 1000000
    - (start.tv_nsec : ℚ) / 1000000

/-- The loop `TAILQ_FOREACH_REVERSE` of `print_time_stats`, which visits the
last element first; `n` bounds the number of elements visited. -/
def raw_pass : Nat → List Time → List Line
  | 0, _ => []
  | n + 1, l =>
    match l.getLast? with
    | none => []
    | some t =>
      (if t.complete = true then [Line.stat (delta t.rawstart t.rawstop) t.name] else [])
        ++ raw_pass n l.dropLast

/-- The loop `while (!TAILQ_EMPTY(head))` of `print_time_stats`, which takes
the last element off the list each time: the lines written and the list left.
`n` bounds the number of rounds. -/
def cpu_pass : Nat → List Time → List Line × List Time
  | 0, l => ([], l)
  | n + 1, l =>
    match l.getLast? with
    | none => ([], l)
    | some t =>
      let rest := cpu_pass n l.dropLast
      ((if t.complete = true then [Line.stat (delta t.procstart t.procstop) t.name] else [])
        ++ rest.1, rest.2)

/-- The source function `print_time_stats`: the lines written and the state
left.  Both loops get as many rounds as the list has elements.  On a head
fresh from `init_timelist` the first loop starts by reading through the dead
`tqh_last`: `none`. -/
def print_time_stats (s : Timing) : Option (List Line × Timing) :=
  if s.verbose_time = false then some ([], s)
  else
    match s.head with
    | Timelist.fresh => none
    | Timelist.live l =>
      let second := cpu_pass l.length l
      some (Line.raw_header :: raw_pass l.length l ++ Line.cpu_header :: second.1,
        { s with head := Timelist.live second.2 })

/-- A call of `grabtime_start` whose allocation succeeds, or of
`grabtime_stop`, with the clock readings it gets. -/
inductive Call where
  | start (name : CStr) (raw proc : Timespec)
  | stop (now : Nat → Timespec × Timespec)

/-- The calls made one after the other; `none` when one of them is undefined. -/
def run_calls : List Call → Timing → Option Timing
  | [], s => some s
  | Call.start name raw proc :: cs, s => run_calls cs (grabtime_start true raw proc name s)
  | Call.stop now :: cs, s =>
    match grabtime_stop now s with
    | none => none
    | some s1 => run_calls cs s1

/-- The number of `grabtime_start` calls in a sequence. -/
def starts : List Call → Nat
  | [] => 0
  | Call.start _ _ _ :: cs => starts cs + 1
  | Call.stop _ :: cs => starts cs

/-- The number of `grabtime_stop` calls in a sequence. -/
def stops : List Call → Nat
  | [] => 0
  | Call.start _ _ _ :: cs => stops cs
  | Call.stop _ :: cs => stops cs + 1

/-- The names passed to `grabtime_start`, in call order. -/
def start_names : List Call → List CStr
  | [] => []
  | Call.start name _ _ :: cs => name :: start_names cs
  | Call.stop _ :: cs => start_names cs

/-- A well-nested sequence: as many starts as stops, and in every prefix at
least as many starts as stops. -/
def WellNested (cs : List Call) : Prop :=
  starts cs = stops cs ∧ ∀ k, stops (cs.take k) ≤ starts (cs.take k)

/-- Well-nestedness at depth `d`: the sequence never makes more stops than
`d` plus the starts so far, and ends with all of them matched. -/
def nested_from : Nat → List Call → Prop
  | d, [] => d = 0
  | d, Call.start _ _ _ :: cs => nested_from (d + 1) cs
  | d, Call.stop _ :: cs => 0 < d ∧ nested_from (d - 1) cs

/-- The number of intervals of a list that are not complete. -/
def open_count : List Time → Nat
  | [] => 0
  | t :: ts => (if t.complete = true then 0 else 1) + open_count ts

/-- Any call of the timing interface, with what the system answers. -/
inductive Op where
  | start (calloc_ok : Bool) (name : CStr) (raw proc : Timespec)
  | stop (now : Nat → Timespec × Timespec)
  | print

/-- The operations made one after the other: the final state and the lines
written, `none` when one of them is undefined. -/
def run_ops : List Op → Timing → Option (Timing × List Line)
  | [], s => some (s, [])
  | Op.start ok name raw proc :: os, s => run_ops os (grabtime_start ok raw proc name s)
  | Op.stop now :: os, s =>
    match grabtime_stop now s with
    | none => none
    | some s1 => run_ops os s1
  | Op.print :: os, s =>
    match print_time_stats s with
    | none => none
    | some (lines, s1) =>
      match run_ops os s1 with
      | none => none
      | some (s2, out) => some (s2, lines ++ out)

/-- The clock readings used in the examples: the `k`-th pair is `(k+10, 0)`
for both clocks. -/
def now_example : Nat → Timespec × Timespec :=
  fun k => (⟨k + 10, 0⟩, ⟨k + 10, 0⟩)

/-- A timestamp with its nanoseconds in range. -/
def Timespec.valid (a : Timespec) : Prop :=
  0 ≤ a.tv_nsec ∧ a.tv_nsec < 1000000000

/-- The timestamp `a` is not later than `b`: seconds first, then nanoseconds. -/
def Timespec.le (a b : Timespec) : Prop :=
  a.tv_sec < b.tv_sec ∨ (a.tv_sec = b.tv_sec ∧ a.tv_nsec ≤ b.tv_nsec)

/-! ## The hash dump tool (`hashdump.c`) -/

/-- What `getopt_long(argc, argv, "np:h", opts, &i)` returns for one option
of the command line. -/
inductive Opt where
  /-- `-n`, `--no-xattrs` -/
  | n
  /-- `-p`, `--path`, with `optarg` -/
  | p (optarg : Option CStr)
  /-- `-h`, `--help` -/
  | h
  /-- anything else -/
  | unknown
  deriving DecidableEq, Repr

/-- The functions of other files that `hashdump_main` calls. -/
structure Collab where
  /-- `mk_full_filename(path_prefix, filename)` -/
  mk_full_filename : CStr → CStr → CStr
  /-- `compute_hash(file, fullname)` for a file with the given `use_xattrs`:
  the status returned and the text left in `file->hash` -/
  compute_hash : Bool → CStr → Int × CStr

/-- `EXIT_FAILURE` of `<stdlib.h>`. -/
def EXIT_FAILURE : Int := 1

/-- How a call of `hashdump_main` ends. -/
inductive MainResult where
  /-- it returns `status`, having written the lines `stdout` to standard
  output; `use_prefix` and the globals are as left -/
  | returned (status : Int) (stdout : List CStr) ( use_prefix : Bool) (g : Globals)
  /-- it calls `exit` with this argument -/
  | exited (status : Int)
  /-- it runs into undefined behaviour -/
  | undefined
  deriving DecidableEq, Repr

/-- The option loop of `hashdump_main`, with the rest of the function as the
continuation `k` (given `file->use_xattrs`, `use_prefix` and the globals). -/
def hashdump_options (env : Env) :
    List Opt → Bool → Bool → Globals → (Bool → Bool → Globals → MainResult) → MainResult
  | [], use_xattrs, use_prefix, g, k => k use_xattrs use_prefix g
  | Opt.n :: os, _, use_prefix, g, k => hashdump_options env os false use_prefix g k
  | Opt.p optarg :: os, use_xattrs, use_prefix, g, k =>
    match optarg with
    | none => MainResult.returned EXIT_FAILURE [] use_prefix g
    | some a =>
      match set_path_prefix env (some a) g with
      | none => MainResult.undefined
      | some (false, g1) => MainResult.returned EXIT_FAILURE [] use_prefix g1
      | some (true, g1) => hashdump_options env os use_xattrs true g1 k
  | Opt.h :: _, _, _, _, _ => MainResult.exited 0
  | Opt.unknown :: _, _, _, _, _ => MainResult.exited (-1)

/-- The source function `hashdump_main`, on the options that `getopt_long`
finds and the arguments left from `optind` on; `use_prefix` is the static
variable of the file.  Only standard output is recorded. -/
def hashdump_main (env : Env) (c : Collab) (opts : List Opt) (operands : List CStr)
    ( use_prefix : Bool) (g : Globals) : MainResult :=
  hashdump_options env opts true use_prefix g fun use_xattrs use_prefix1 g1 =>
    match operands with
    | [] => MainResult.exited (-1)
    | filename :: _ =>
      match set_path_prefix env none g1 with
      | none => MainResult.undefined
      | some (false, g2) => MainResult.returned EXIT_FAILURE [] use_prefix1 g2
      | some (true, g2) =>
        let fullname : Option CStr :=
          if use_prefix1 then
            match Globals.path_prefix g2 with
            | Ptr.str pp => some (c.mk_full_filename pp filename)
            | _ => none
          else some filename
        match fullname with
        | none => MainResult.undefined
        | some f =>
          if (c.compute_hash use_xattrs f).1 ≠ 0 then MainResult.returned 0 [] use_prefix1 g2
          else MainResult.returned 0 [(c.compute_hash use_xattrs f).2] use_prefix1 g2

/-- Collaborators whose `compute_hash` fails with status -1. -/
def collab_failing : Collab :=
  { mk_full_filename := fun pp f => pp ++ f
    compute_hash := fun _ _ => (-1, []) }

/-- The globals a call of `init_globals` leaves, when it returns or exits. -/
def InitResult.final : InitResult → Option Globals
  | InitResult.returned _ g => some g
  | InitResult.exit_failure g => some g
  | InitResult.undefined => none

/-- The states that calls of `set_state_dir`, `set_path_prefix` and
`init_globals`, successful or not, can produce from the initial state over
the fixed environment `env`. -/
inductive ReachablePaths (env : Env) : Globals → Prop where
  | init : ReachablePaths env Globals.init
  | state_dir (path : Option CStr) (ret : Bool) (g g1 : Globals) :
      ReachablePaths env g → set_state_dir env path g = (ret, g1) → ReachablePaths env g1
  | prefix_step (path : Option CStr) (ret : Bool) (g g1 : Globals) :
      ReachablePaths env g → set_path_prefix env path g = some (ret, g1) →
      ReachablePaths env g1
  | init_globals (g g1 : Globals) :
      ReachablePaths env g → (init_globals env g).final = some g1 → ReachablePaths env g1

/-! ## Properties -/

/-- C1. The URL setters are first-wins: from a state where `version_url` is
unset, `set_version_url(a)` and then `set_version_url(b)` both return 0 and
`version_url` is `a` afterwards; the same holds for `set_content_url` and
`content_url`. -/
theorem url_setters_first_wins (env : Env) (a b : CStr) :
    (∀ g : Globals, g.version_url = none →
      ∃ g1, set_version_url env (some a) g = some (0, g1) ∧
        set_version_url env (some b) g1 = some (0, g1) ∧
        g1.version_url = some a) ∧
    (∀ g : Globals, g.content_url = none →
      ∃ g1, set_content_url env (some a) g = some (0, g1) ∧
        set_content_url env (some b) g1 = some (0, g1) ∧
        g1.content_url = some a) := by
  constructor
  · intro g hg
    refine ⟨g.assign GlobalRef.version_url a, ?_, ?_, ?_⟩
    · simp [set_version_url, hg, set_url]
    · simp [set_version_url, Globals.assign]
    · simp [Globals.assign]
  · intro g hg
    refine ⟨g.assign GlobalRef.content_url a, ?_, ?_, ?_⟩
    · simp [set_content_url, hg, set_url]
    · simp [set_content_url, Globals.assign]
    · simp [Globals.assign]


theorem digits_value_ge (l : CStr) : ∀ acc : Nat, acc ≤ digits_value acc l := by
  induction l with
  | nil => intro acc; simp [digits_value]
  | cons c cs ih =>
    intro acc
    simp only [digits_value]
    split
    · exact le_trans (by omega) (ih _)
    · exact le_refl _

theorem toDigitsCore_head (fuel : Nat) : ∀ (n : Nat) (ds : List Char), 0 < n → n < fuel →
    ∃ d rest, 1 ≤ d ∧ d ≤ 9 ∧ Nat.toDigitsCore 10 fuel n ds = Nat.digitChar d :: rest := by
  induction fuel with
  | zero => intro n ds _ h; omega
  | succ f ih =>
    intro n ds hn hf
    simp only [Nat.toDigitsCore]
    by_cases h0 : n / 10 = 0
    · refine ⟨n % 10, ds, ?_, ?_, ?_⟩
      · omega
      · omega
      · simp [h0]
    · simp only [h0, if_false]
      exact ih (n / 10) _ (by omega) (by omega)

theorem digitChar_facts (d : Nat) (h1 : 1 ≤ d) (h9 : d ≤ 9) :
    (Nat.digitChar d).isDigit = true ∧ (Nat.digitChar d).toNat - '0'.toNat = d ∧
    isspace (Nat.digitChar d) = false ∧ Nat.digitChar d ≠ '-' ∧ Nat.digitChar d ≠ '+' := by
  interval_cases d <;> decide

theorem is_valid_integer_format_repr (n : Nat) (hn : 1 ≤ n) :
    is_valid_integer_format (Nat.repr n).toList = true := by
  have hrepr : (Nat.repr n).toList = Nat.toDigitsCore 10 (n + 1) n [] := rfl
  obtain ⟨d, rest, h1, h9, hd⟩ := toDigitsCore_head (n + 1) n [] hn (by omega)
  obtain ⟨hdig, hval, hsp, hminus, hplus⟩ := digitChar_facts d h1 h9
  rw [hrepr, hd]
  have hv : 1 ≤ digits_value 0 (Nat.digitChar d :: rest) := by
    simp only [digits_value, hdig, if_true, hval]
    exact le_trans (by omega) (digits_value_ge rest _)
  simp only [is_valid_integer_format, strtoull, List.dropWhile, hsp, List.head?_cons,
    Option.some.injEq, hminus, hplus, or_self, if_false]
  by_cases hbig : digits_value 0 (Nat.digitChar d :: rest) > ULLONG_MAX
  · rw [if_pos hbig]
    simp [ULLONG_MAX, ERANGE]
  · rw [if_neg hbig]
    simp
    omega

/-- C2. From a state where `format_string` is unset, `set_format_string`
accepts and stores "staging", rejects "0", and accepts and stores the decimal
text of every integer `n ≥ 1`. -/
theorem set_format_string_examples (env : Env) (g : Globals) (h : g.format_string = none) :
    set_format_string env (some "staging".toList) g
      = some (true, { g with format_string := some "staging".toList }) ∧
    set_format_string env (some "0".toList) g = some (false, g) ∧
    ∀ n : Nat, 1 ≤ n →
      set_format_string env (some (Nat.repr n).toList) g
        = some (true, { g with format_string := some (Nat.repr n).toList }) := by
  refine ⟨?_, ?_, ?_⟩
  · simp [set_format_string, h]
  · have h0 : is_valid_integer_format ['0'] = false := by decide
    simp [set_format_string, h, h0]
  · intro n hn
    have hv := is_valid_integer_format_repr n hn
    simp only [set_format_string, h, hv]
    split <;> simp

/-- Witness of C1 with a = "http://a" and b = "http://b", from the initial state. -/
theorem url_setters_first_wins_witness :
    ∃ g1, set_version_url env_plain (some "http://a".toList) Globals.init = some (0, g1) ∧
      set_version_url env_plain (some "http://b".toList) g1 = some (0, g1) ∧
      g1.version_url = some "http://a".toList :=
  (url_setters_first_wins env_plain "http://a".toList "http://b".toList).1 Globals.init rfl

/-- Witness of C2: "7" is accepted and stored from the initial state. -/
theorem set_format_string_examples_witness :
    Globals.init.format_string = none ∧
    set_format_string env_plain (some "7".toList) Globals.init
      = some (true, { Globals.init with format_string := some "7".toList }) :=
  ⟨rfl, (set_format_string_examples env_plain Globals.init rfl).2.2 7 (by decide)⟩

/-- C3 (the code at the failing inputs). From the initial state
`set_format_string` accepts and stores "-7", "7abc", " 7" and "+7", none of
which is "staging" or the digits of a positive integer. -/
theorem set_format_string_accepts_malformed (env : Env) :
    set_format_string env (some "-7".toList) Globals.init
      = some (true, { Globals.init with format_string := some "-7".toList }) ∧
    set_format_string env (some "7abc".toList) Globals.init
      = some (true, { Globals.init with format_string := some "7abc".toList }) ∧
    set_format_string env (some " 7".toList) Globals.init
      = some (true, { Globals.init with format_string := some " 7".toList }) ∧
    set_format_string env (some "+7".toList) Globals.init
      = some (true, { Globals.init with format_string := some "+7".toList }) := by
  refine ⟨?_, ?_, ?_, ?_⟩ <;> rfl

/-- C4. `set_state_dir` for every input and prior state: without a path it
returns true, storing `STATE_DIR` when `state_dir` is unset and changing
nothing when it is set; with a path that starts with `/` it returns true and
stores the path; with any other path it returns false and changes nothing.
So `set_state_dir("/custom")` and then `set_state_dir(NULL)` leave "/custom". -/
theorem set_state_dir_spec (env : Env) (g : Globals) :
    (g.state_dir = none →
      set_state_dir env none g = (true, { g with state_dir := some env.STATE_DIR })) ∧
    (g.state_dir ≠ none → set_state_dir env none g = (true, g)) ∧
    (∀ p : CStr, p.head? = some '/' →
      set_state_dir env (some p) g = (true, { g with state_dir := some p })) ∧
    (∀ p : CStr, p.head? ≠ some '/' → set_state_dir env (some p) g = (false, g)) ∧
    set_state_dir env none (set_state_dir env (some "/custom".toList) g).2
      = (true, { g with state_dir := some "/custom".toList }) := by
  refine ⟨?_, ?_, ?_, ?_, ?_⟩
  · intro h
    simp [set_state_dir, h]
  · intro h
    cases hs : g.state_dir with
    | none => exact absurd hs h
    | some s => simp [set_state_dir, hs]
  · intro p hp
    simp [set_state_dir, hp]
  · intro p hp
    simp [set_state_dir, hp]
  · simp [set_state_dir]

/-- Witness of C4: a relative path is refused in the initial state. -/
theorem set_state_dir_spec_witness :
    set_state_dir env_plain (some "var/lib".toList) Globals.init = (false, Globals.init) :=
  (set_state_dir_spec env_plain Globals.init).2.2.2.1 "var/lib".toList (by decide)

theorem getLast?_of_double_slash_suffix (s : CStr) (h : ['/', '/'] <:+ s) :
    s.getLast? = some '/' := by
  obtain ⟨t, rfl⟩ := h
  simp [List.getLast?_append]

theorem not_double_slash_append (P : CStr) (h : P.getLast? ≠ some '/') :
    ¬ (['/', '/'] <:+ P ++ ['/']) := by
  rintro ⟨t, ht⟩
  have h2 : (t ++ ['/']) ++ ['/'] = P ++ ['/'] := by simpa using ht
  have h3 : t ++ ['/'] = P := List.append_cancel_right h2
  apply h
  rw [← h3]
  simp [List.getLast?_append]

/-- C5 (counterexample). "/usr//" is absolute and names an existing directory,
`set_path_prefix` accepts it, and the stored value is "/usr//", which ends
with "//" and is not "/usr/". -/
theorem set_path_prefix_keeps_double_slash :
    ("/usr//".toList).head? = some '/' ∧ env_plain.is_dir "/usr//".toList = true ∧
    set_path_prefix env_plain (some "/usr//".toList) Globals.init
      = some (true, { Globals.init with path_prefix := Ptr.str "/usr//".toList }) ∧
    "//".toList <:+ "/usr//".toList ∧ "/usr//".toList ≠ "/usr/".toList := by
  refine ⟨rfl, rfl, rfl, ⟨"/usr".toList, rfl⟩, by decide⟩

/-- C5 (amended). For every absolute path `P` and every prior state whose
`path_prefix` is null or a live string, when the path that is checked (`P`
itself if it ends with `/`, otherwise `P` followed by `/`) is an existing
directory, `set_path_prefix(P)` returns true and stores exactly that path.
The stored value ends with `/`, and it ends with "//" only if `P` does. -/
theorem set_path_prefix_absolute (env : Env) (P : CStr) (g : Globals)
    (hg : Globals.path_prefix g ≠ Ptr.freed) (habs : P.head? = some '/')
    (hdir : env.is_dir (if P.getLast? = some '/' then P else P ++ ['/']) = true) :
    set_path_prefix env (some P) g
      = some (true,
          { g with path_prefix := Ptr.str (if P.getLast? = some '/' then P else P ++ ['/']) }) ∧
    (if P.getLast? = some '/' then P else P ++ ['/']).getLast? = some '/' ∧
    (['/', '/'] <:+ (if P.getLast? = some '/' then P else P ++ ['/']) ↔ ['/', '/'] <:+ P) := by
  have hne : P ≠ [] := by
    intro h
    simp [h] at habs
  have hlen : ¬ (P.length = 0) := by
    simpa [List.length_eq_zero] using hne
  refine ⟨?_, ?_, ?_⟩
  · cases hpp : Globals.path_prefix g with
    | freed => exact absurd hpp hg
    | null =>
      by_cases hl : P.getLast? = some '/'
      · simp only [hl, if_true] at hdir
        simp [ set_path_prefix, hpp, habs, hl, stat_path_prefix, hdir, hlen]
      · simp only [hl, if_false] at hdir
        simp [ set_path_prefix, hpp, habs, hl, stat_path_prefix, hdir, hlen]
    | str old =>
      by_cases hl : P.getLast? = some '/'
      · simp only [hl, if_true] at hdir
        simp [ set_path_prefix, hpp, habs, hl, stat_path_prefix, hdir, hlen]
      · simp only [hl, if_false] at hdir
        simp [ set_path_prefix, hpp, habs, hl, stat_path_prefix, hdir, hlen]
  · by_cases hl : P.getLast? = some '/'
    · simp [hl]
    · simp [hl, List.getLast?_append]
  · by_cases hl : P.getLast? = some '/'
    · simp [hl]
    · simp only [hl, if_false]
      constructor
      · intro h
        exact absurd h (not_double_slash_append P hl)
      · intro h
        exact absurd (getLast?_of_double_slash_suffix P h) hl

/-- Witness of C5 (amended): "/usr" is stored as "/usr/". -/
theorem set_path_prefix_absolute_witness :
    set_path_prefix env_plain (some "/usr".toList) Globals.init
      = some (true, { Globals.init with path_prefix := Ptr.str "/usr/".toList }) :=
  (set_path_prefix_absolute env_plain "/usr".toList Globals.init (by decide) (by decide)
    (by decide)).1

/-- C6. With current directory `c`, for every non-empty path `p` that does
not start with `/` and every prior state whose `path_prefix` is null or a
live string, when the resolved directory exists `set_path_prefix(p)` returns
true and stores `c`, `/`, `p`, and one more `/` unless `p` ends with `/`. -/
theorem set_path_prefix_relative (env : Env) (c p : CStr) (g : Globals)
    (hg : Globals.path_prefix g ≠ Ptr.freed) (hcwd : env.cwd = some c)
    (hne : p ≠ []) (hrel : p.head? ≠ some '/')
    (hdir : env.is_dir
      (c ++ ['/'] ++ p ++ (if p.getLast? = some '/' then [] else ['/'])) = true) :
    set_path_prefix env (some p) g
      = some (true, { g with
          path_prefix := Ptr.str (c ++ ['/'] ++ p ++ (if p.getLast? = some '/' then [] else ['/'])) }) := by
  have hlast : (c ++ '/' :: p).getLast? = p.getLast? := by
    cases p with
    | nil => exact absurd rfl hne
    | cons a as =>
      have : c ++ '/' :: a :: as = (c ++ ['/']) ++ (a :: as) := by simp
      rw [this, List.getLast?_append]
      obtain ⟨x, hx⟩ : ∃ x, (a :: as).getLast? = some x :=
        ⟨_, List.getLast?_eq_getLast _ (List.cons_ne_nil a as)⟩
      rw [hx]
      rfl
  have hlen : ¬ ((c ++ '/' :: p).length = 0) := by simp
  cases hpp : Globals.path_prefix g with
  | freed => exact absurd hpp hg
  | null =>
    by_cases hl : p.getLast? = some '/'
    · simp only [hl, if_true, List.append_nil] at hdir ⊢
      simp [ set_path_prefix, hpp, hrel, hcwd, hlast, hl, stat_path_prefix, hdir] at hdir ⊢
      simpa using hdir
    · simp only [hl, if_false] at hdir ⊢
      simp [ set_path_prefix, hpp, hrel, hcwd, hlast, hl, stat_path_prefix, hdir] at hdir ⊢
      simpa using hdir
  | str old =>
    by_cases hl : p.getLast? = some '/'
    · simp only [hl, if_true, List.append_nil] at hdir ⊢
      simp [ set_path_prefix, hpp, hrel, hcwd, hlast, hl, stat_path_prefix, hdir] at hdir ⊢
      simpa using hdir
    · simp only [hl, if_false] at hdir ⊢
      simp [ set_path_prefix, hpp, hrel, hcwd, hlast, hl, stat_path_prefix, hdir] at hdir ⊢
      simpa using hdir

/-- Witness of C6: in "/home/user" the path "tmp" resolves to "/home/user/tmp/". -/
theorem set_path_prefix_relative_witness :
    set_path_prefix env_plain (some "tmp".toList) Globals.init
      = some (true, { Globals.init with path_prefix := Ptr.str "/home/user/tmp/".toList }) :=
  set_path_prefix_relative env_plain "/home/user".toList "tmp".toList Globals.init
    (by decide) rfl (by decide) (by decide) (by decide)

/-! ### What a setter leaves alone -/

theorem set_default_value_from_path_cases (env : Env) (r : GlobalRef) (path : CStr)
    (g g1 : Globals) (ret : Int)
    (h : set_default_value_from_path env r path g = some (ret, g1)) :
    (ret = -1 ∧ g1 = g) ∨ (ret = 0 ∧ ∃ v, g1 = g.assign r v) := by
  unfold set_default_value_from_path at h
  split at h
  · exact absurd h (by simp)
  · exact absurd h (by simp)
  · simp only at h
    split at h
    · simp only [Option.some.injEq, Prod.mk.injEq] at h
      exact Or.inl ⟨h.1.symm, h.2.symm⟩
    · split at h
      · simp only [Option.some.injEq, Prod.mk.injEq] at h
        exact Or.inl ⟨h.1.symm, h.2.symm⟩
      · simp only [Option.some.injEq, Prod.mk.injEq] at h
        exact Or.inr ⟨h.1.symm, _, h.2.symm⟩

theorem set_url_cases (env : Env) (r : GlobalRef) (url : Option CStr) (path : CStr)
    (g g1 : Globals) (ret : Int) (h : set_url env r url path g = some (ret, g1)) :
    (ret = -1 ∧ g1 = g) ∨ (ret = 0 ∧ (g1 = g ∨ ∃ v, g1 = g.assign r v)) := by
  unfold set_url at h
  split at h
  · simp only [Option.some.injEq, Prod.mk.injEq] at h
    exact Or.inr ⟨h.1.symm, Or.inr ⟨_, h.2.symm⟩⟩
  · split at h
    · simp only [Option.some.injEq, Prod.mk.injEq] at h
      exact Or.inr ⟨h.1.symm, Or.inl h.2.symm⟩
    · rcases set_default_value_from_path_cases env r path g g1 ret h with h1 | ⟨h1, h2⟩
      · exact Or.inl h1
      · exact Or.inr ⟨h1, Or.inr h2⟩

theorem set_version_url_cases (env : Env) (url : Option CStr) (g g1 : Globals) (ret : Int)
    (h : set_version_url env url g = some (ret, g1)) :
    (ret = -1 ∧ g1 = g) ∨ (ret = 0 ∧ (g1 = g ∨ ∃ v, g1 = { g with version_url := some v })) := by
  unfold set_version_url at h
  split at h
  · simp only [Option.some.injEq, Prod.mk.injEq] at h
    exact Or.inr ⟨h.1.symm, Or.inl h.2.symm⟩
  · exact set_url_cases env GlobalRef.version_url url _ g g1 ret h

theorem set_content_url_cases (env : Env) (url : Option CStr) (g g1 : Globals) (ret : Int)
    (h : set_content_url env url g = some (ret, g1)) :
    (ret = -1 ∧ g1 = g) ∨ (ret = 0 ∧ (g1 = g ∨ ∃ v, g1 = { g with content_url := some v })) := by
  unfold set_content_url at h
  split at h
  · simp only [Option.some.injEq, Prod.mk.injEq] at h
    exact Or.inr ⟨h.1.symm, Or.inl h.2.symm⟩
  · exact set_url_cases env GlobalRef.content_url url _ g g1 ret h

theorem set_format_string_cases (env : Env) (value : Option CStr) (g g1 : Globals) (ret : Bool)
    (h : set_format_string env value g = some (ret, g1)) :
    g1 = g ∨ ∃ v, g1 = { g with format_string := some v } := by
  unfold set_format_string at h
  split at h
  · simp only [Option.some.injEq, Prod.mk.injEq] at h
    exact Or.inl h.2.symm
  · split at h
    · split at h
      · simp only [Option.some.injEq, Prod.mk.injEq] at h
        exact Or.inr ⟨_, h.2.symm⟩
      · split at h
        · simp only [Option.some.injEq, Prod.mk.injEq] at h
          exact Or.inl h.2.symm
        · simp only [Option.some.injEq, Prod.mk.injEq] at h
          exact Or.inr ⟨_, h.2.symm⟩
    · split at h
      · exact absurd h (by simp)
      · rename_i r0 g0 hd
        have hg0 : g1 = g0 := by
          split at h
          · simp only [Option.some.injEq, Prod.mk.injEq] at h
            exact h.2.symm
          · split at h
            · exact absurd h (by simp)
            · split at h <;>
              · simp only [Option.some.injEq, Prod.mk.injEq] at h
                exact h.2.symm
        subst hg0
        rcases set_default_value_from_path_cases env _ _ g g1 r0 hd with h1 | ⟨_, v, hv⟩
        · exact Or.inl h1.2
        · exact Or.inr ⟨v, hv⟩

theorem set_state_dir_cases (env : Env) (path : Option CStr) (g g1 : Globals) (ret : Bool)
    (h : set_state_dir env path g = (ret, g1)) :
    g1 = g ∨ (ret = true ∧ ∃ v, g1 = { g with state_dir := some v }) := by
  unfold set_state_dir at h
  split at h
  · split at h
    · simp only [Prod.mk.injEq] at h
      exact Or.inl h.2.symm
    · simp only [Prod.mk.injEq] at h
      exact Or.inr ⟨h.1.symm, _, h.2.symm⟩
  · split at h
    · simp only [Prod.mk.injEq] at h
      exact Or.inl h.2.symm
    · simp only [Prod.mk.injEq] at h
      exact Or.inr ⟨h.1.symm, _, h.2.symm⟩

theorem set_cert_path_cases (env : Env) (path : Option CStr) (g : Globals) :
    set_cert_path env path g = g ∨ ∃ v, set_cert_path env path g = { g with cert_path := some v } := by
  unfold set_cert_path
  split
  · split
    · exact Or.inl rfl
    · split
      · exact Or.inr ⟨_, rfl⟩
      · exact Or.inr ⟨_, rfl⟩
  · exact Or.inl rfl

theorem stat_path_prefix_eq (env : Env) (p : CStr) (g : Globals) :
    stat_path_prefix env p g = (env.is_dir p, g) := by
  unfold stat_path_prefix
  cases env.is_dir p <;> simp

theorem set_path_prefix_frame (env : Env) (path : Option CStr) (g g1 : Globals) (ret : Bool)
    (h : set_path_prefix env path g = some (ret, g1)) :
    g1 = { g with path_prefix := Globals.path_prefix g1 } := by
  unfold set_path_prefix at h
  simp only [stat_path_prefix_eq] at h
  split at h
  · split at h
    · exact absurd h (by simp)
    · split at h
      · simp only [Option.some.injEq, Prod.mk.injEq] at h
        rw [← h.2]
      · simp only [Option.some.injEq, Prod.mk.injEq] at h
        rw [← h.2]
  · split at h
    · simp only [Option.some.injEq, Prod.mk.injEq] at h
      rw [← h.2]
    · simp only [Option.some.injEq, Prod.mk.injEq] at h
      rw [← h.2]
    · simp only [Option.some.injEq, Prod.mk.injEq] at h
      rw [← h.2]

theorem set_default_value_from_path_fail (env : Env) (r : GlobalRef) (path pp : CStr)
    (g : Globals) (hpp : Globals.path_prefix g = Ptr.str pp)
    (hf : fgets LINE_MAX (env.file (pp ++ path)) = none) :
    set_default_value_from_path env r path g = some (-1, g) := by
  unfold set_default_value_from_path
  rw [hpp]
  simp only
  split
  · rfl
  · rw [hf]

theorem set_default_value_from_path_ok (env : Env) (r : GlobalRef) (path pp : CStr)
    (g : Globals) (line : List Char) (hpp : Globals.path_prefix g = Ptr.str pp)
    (hf : fgets LINE_MAX (env.file (pp ++ path)) = some line) :
    set_default_value_from_path env r path g
      = some (0, g.assign r (strip_newline (c_string line))) := by
  unfold set_default_value_from_path
  rw [hpp]
  simp only
  split
  · rename_i habs
    rw [habs] at hf
    simp [fgets] at hf
  · rw [hf]

/-- C7 (counterexample). `set_path_prefix("/nonexistent")` reports failure from
the initial state and leaves `path_prefix` changed from unset to
"/nonexistent/". -/
theorem set_path_prefix_failure_changes_state :
    set_path_prefix env_plain (some "/nonexistent".toList) Globals.init
      = some (false, { Globals.init with path_prefix := Ptr.str "/nonexistent/".toList }) ∧
    Globals.path_prefix { Globals.init with path_prefix := Ptr.str "/nonexistent/".toList }
      ≠ Globals.path_prefix Globals.init := by
  refine ⟨rfl, by decide⟩

/-- C7 (amended). A failed call leaves every setting as it was for
`set_state_dir`, `set_version_url`, `set_content_url`, `set_format_string`
with a value, and `set_format_string` without a value when the default file
cannot be opened or read or is empty; a failed `set_path_prefix` leaves every
setting other than `path_prefix` as it was. -/
theorem setter_failure_frame (env : Env) (g g1 : Globals) :
    (∀ path, set_state_dir env path g = (false, g1) → g1 = g) ∧
    (∀ url ret, ret < 0 → set_version_url env url g = some (ret, g1) → g1 = g) ∧
    (∀ url ret, ret < 0 → set_content_url env url g = some (ret, g1) → g1 = g) ∧
    (∀ value, set_format_string env (some value) g = some (false, g1) → g1 = g) ∧
    (∀ pp, Globals.path_prefix g = Ptr.str pp →
      fgets LINE_MAX (env.file (pp ++ default_format_path)) = none →
      set_format_string env none g = some (false, g1) → g1 = g) ∧
    (∀ path, set_path_prefix env path g = some (false, g1) →
      g1 = { g with path_prefix := Globals.path_prefix g1 }) := by
  refine ⟨?_, ?_, ?_, ?_, ?_, ?_⟩
  · intro path h
    rcases set_state_dir_cases env path g g1 false h with h1 | ⟨h1, _⟩
    · exact h1
    · exact absurd h1 (by decide)
  · intro url ret hret h
    rcases set_version_url_cases env url g g1 ret h with h1 | ⟨h1, _⟩
    · exact h1.2
    · omega
  · intro url ret hret h
    rcases set_content_url_cases env url g g1 ret h with h1 | ⟨h1, _⟩
    · exact h1.2
    · omega
  · intro value h
    unfold set_format_string at h
    split at h
    · exact absurd h (by simp)
    · simp only at h
      split at h
      · exact absurd h (by simp)
      · split at h
        · simp only [Option.some.injEq, Prod.mk.injEq] at h
          exact h.2.symm
        · exact absurd h (by simp)
  · intro pp hpp hf h
    unfold set_format_string at h
    split at h
    · exact absurd h (by simp)
    · rw [set_default_value_from_path_fail env _ _ pp g hpp hf] at h
      simp only [Option.some.injEq, Prod.mk.injEq] at h
      simpa using h.symm
  · intro path h
    exact set_path_prefix_frame env path g g1 false h

/-- Witness of C7 (amended): the failed `set_path_prefix("/nonexistent")`
changes nothing but `path_prefix`. -/
theorem setter_failure_frame_witness :
    set_path_prefix env_plain (some "/nonexistent".toList) Globals.init
      = some (false, { Globals.init with path_prefix := Ptr.str "/nonexistent/".toList }) ∧
    ({ Globals.init with path_prefix := Ptr.str "/nonexistent/".toList } : Globals)
      = { Globals.init with path_prefix := Ptr.str "/nonexistent/".toList } :=
  ⟨rfl, (setter_failure_frame env_plain Globals.init
    { Globals.init with path_prefix := Ptr.str "/nonexistent/".toList }).2.2.2.2.2
    (some "/nonexistent".toList) rfl⟩

/-! ### `path_prefix` names a directory -/

theorem set_path_prefix_success (env : Env) (path : Option CStr) (g g1 : Globals)
    (hinv : Globals.path_prefix g = Ptr.null ∨ ∃ s, Globals.path_prefix g = Ptr.str s ∧ env.is_dir s = true)
    (h : set_path_prefix env path g = some (true, g1)) :
    ∃ s, Globals.path_prefix g1 = Ptr.str s ∧ env.is_dir s = true := by
  unfold set_path_prefix at h
  simp only [stat_path_prefix_eq] at h
  split at h
  · split at h
    · exact absurd h (by simp)
    · split at h
      · exact absurd h (by simp)
      · simp only [Option.some.injEq, Prod.mk.injEq] at h
        refine ⟨_, ?_, h.1⟩
        rw [← h.2]
  · split at h
    · simp only [Option.some.injEq, Prod.mk.injEq] at h
      refine ⟨_, ?_, h.1⟩
      rw [← h.2]
    · rename_i hfr
      rcases hinv with h0 | ⟨s, hs, _⟩
      · rw [hfr] at h0
        exact absurd h0 (by simp)
      · rw [hfr] at hs
        exact absurd hs (by simp)
    · rename_i s0 hs0
      simp only [Option.some.injEq, Prod.mk.injEq] at h
      rw [← h.2]
      rcases hinv with h0 | ⟨s, hs, hd⟩
      · rw [hs0] at h0
        exact absurd h0 (by simp)
      · exact ⟨s, hs, hd⟩

theorem reachable_prefix_inv (env : Env) (g : Globals) (h : Reachable env g) :
    Globals.path_prefix g = Ptr.null ∨ ∃ s, Globals.path_prefix g = Ptr.str s ∧ env.is_dir s = true := by
  induction h with
  | init => exact Or.inl rfl
  | state_dir path ret g g1 _ hstep ih =>
    rcases set_state_dir_cases env path g g1 ret hstep with h1 | ⟨_, v, h1⟩
    · rw [h1]; exact ih
    · rw [h1]; exact ih
  | format_string value ret g g1 _ hstep ih =>
    rcases set_format_string_cases env value g g1 ret hstep with h1 | ⟨v, h1⟩
    · rw [h1]; exact ih
    · rw [h1]; exact ih
  | version_url url ret g g1 _ hstep ih =>
    rcases set_version_url_cases env url g g1 ret hstep with h1 | ⟨_, h1 | ⟨v, h1⟩⟩
    · rw [h1.2]; exact ih
    · rw [h1]; exact ih
    · rw [h1]; exact ih
  | content_url url ret g g1 _ hstep ih =>
    rcases set_content_url_cases env url g g1 ret hstep with h1 | ⟨_, h1 | ⟨v, h1⟩⟩
    · rw [h1.2]; exact ih
    · rw [h1]; exact ih
    · rw [h1]; exact ih
  | cert_path path g _ ih =>
    rcases set_cert_path_cases env path g with h1 | ⟨v, h1⟩
    · rw [h1]; exact ih
    · rw [h1]; exact ih
  | prefix_ok path g g1 _ hstep ih =>
    exact Or.inr (set_path_prefix_success env path g g1 ih hstep)

/-- C8 (counterexample). After the failed `set_path_prefix("/nonexistent")`,
`set_path_prefix(NULL)` returns true while the stored `path_prefix`,
"/nonexistent/", is not an existing directory. -/
theorem set_path_prefix_true_without_directory :
    set_path_prefix env_plain (some "/nonexistent".toList) Globals.init
      = some (false, { Globals.init with path_prefix := Ptr.str "/nonexistent/".toList }) ∧
    set_path_prefix env_plain none
        { Globals.init with path_prefix := Ptr.str "/nonexistent/".toList }
      = some (true, { Globals.init with path_prefix := Ptr.str "/nonexistent/".toList }) ∧
    env_plain.is_dir "/nonexistent/".toList = false := by
  refine ⟨rfl, rfl, rfl⟩

/-- C8 (amended). Over a fixed filesystem, in every state the setters can
produce from the initial state while no call of `set_path_prefix` has
failed, and for every argument, if `set_path_prefix` returns true then the
stored `path_prefix` is a live string that names an existing directory. -/
theorem set_path_prefix_true_names_directory (env : Env) (path : Option CStr)
    (g g1 : Globals) (hreach : Reachable env g)
    (h : set_path_prefix env path g = some (true, g1)) :
    ∃ s, Globals.path_prefix g1 = Ptr.str s ∧ env.is_dir s = true :=
  set_path_prefix_success env path g g1 (reachable_prefix_inv env g hreach) h

/-- Witness of C8 (amended): after `set_state_dir(NULL)` and
`set_path_prefix("/usr")`, the call `set_path_prefix(NULL)` returns true and
"/usr/" is a directory. -/
theorem set_path_prefix_true_names_directory_witness :
    ∃ s, Globals.path_prefix (Globals.mk none (Ptr.str "/usr/".toList) none none
        (some env_plain.STATE_DIR) none none none) = Ptr.str s ∧ env_plain.is_dir s = true :=
  set_path_prefix_true_names_directory env_plain none
    (Globals.mk none (Ptr.str "/usr/".toList) none none (some env_plain.STATE_DIR) none none none)
    (Globals.mk none (Ptr.str "/usr/".toList) none none (some env_plain.STATE_DIR) none none none)
    (Reachable.prefix_ok (some "/usr".toList)
      { Globals.init with state_dir := some env_plain.STATE_DIR } _
      (Reachable.state_dir none true Globals.init _ Reachable.init rfl) rfl)
    rfl

/-- C9 (the code at the failing input). With the format default file
holding the line "0", which fails validation, and the compile-time format id
"3", `init_globals` returns true from the initial state with `format_string`
equal to "0", not "3". -/
theorem init_globals_keeps_invalid_format :
    init_globals env_format_zero Globals.init
      = InitResult.returned true
          (Globals.mk (some "0".toList) (Ptr.str "/".toList) none none
            (some "/var/lib/swupd".toList) (some "https://example.com/update".toList)
            (some "https://example.com/update".toList) none) ∧
    set_format_string env_format_zero none
        (Globals.mk none (Ptr.str "/".toList) none none (some "/var/lib/swupd".toList)
          none none none)
      = some (false, Globals.mk (some "0".toList) (Ptr.str "/".toList) none none
          (some "/var/lib/swupd".toList) none none none) ∧
    env_format_zero.FORMATID = some "3".toList := by
  refine ⟨?_, ?_, rfl⟩
  · rfl
  · rfl

/-! ### The line taken from a default file -/

theorem strip_c_string_fgets_chars (n : Nat) : ∀ bytes : List Char,
    strip_newline (c_string (fgets_chars n bytes))
      = (bytes.take n).takeWhile (fun c => c != '\n' && c != '\x00') := by
  induction n with
  | zero => intro bytes; simp [fgets_chars, c_string, strip_newline]
  | succ n ih =>
    intro bytes
    cases bytes with
    | nil => simp [fgets_chars, c_string, strip_newline]
    | cons c cs =>
      by_cases hnl : c = '\n'
      · subst hnl
        simp [fgets_chars, c_string, strip_newline, List.takeWhile]
      · by_cases hz : c = '\x00'
        · subst hz
          simp [fgets_chars, c_string, strip_newline, List.takeWhile]
        · have ih1 := ih cs
          simp only [c_string, strip_newline] at ih1
          have h1 : decide (c ≠ '\x00') = true := by simp [hz]
          have h2 : decide (c ≠ '\n') = true := by simp [hnl]
          have h3 : (c != '\n' && c != '\x00') = true := by simp [hnl, hz]
          simp only [fgets_chars, hnl, if_false, c_string, strip_newline, List.take_succ_cons,
            List.takeWhile_cons, h1, h2, h3, if_true, ih1]

theorem fgets_data_cons (b : Char) (bs : List Char) :
    ∃ line, fgets LINE_MAX (File.data (b :: bs)) = some line ∧
      strip_newline (c_string line) = kept_line (b :: bs) := by
  have hne : fgets_chars (LINE_MAX - 1) (b :: bs) ≠ [] := by
    have : LINE_MAX - 1 = 2046 + 1 := by decide
    rw [this]
    simp only [fgets_chars]
    split <;> simp
  refine ⟨fgets_chars (LINE_MAX - 1) (b :: bs), ?_, ?_⟩
  · simp [fgets, hne]
  · exact strip_c_string_fgets_chars _ _

theorem fgets_none_of_not_data (f : File) (h : ∀ b bs, f ≠ File.data (b :: bs)) :
    fgets LINE_MAX f = none := by
  cases f with
  | absent => rfl
  | unreadable => rfl
  | data bytes =>
    cases bytes with
    | nil => rfl
    | cons b bs => exact absurd rfl (h b bs)

/-- With a live `path_prefix`, `set_default_value_from_path` stores the kept
line of a non-empty readable file and fails otherwise. -/
theorem set_default_value_from_path_eq (env : Env) (r : GlobalRef) (path pp : CStr)
    (g : Globals) (hpp : Globals.path_prefix g = Ptr.str pp) :
    set_default_value_from_path env r path g =
      match env.file (pp ++ path) with
      | File.data (b :: bs) => some (0, g.assign r (kept_line (b :: bs)))
      | _ => some (-1, g) := by
  split
  · rename_i b bs hfile
    obtain ⟨line, hline, hkept⟩ := fgets_data_cons b bs
    rw [set_default_value_from_path_ok env r path pp g line hpp (by rw [hfile]; exact hline),
      hkept]
  · rename_i hfile
    exact set_default_value_from_path_fail env r path pp g hpp
      (fgets_none_of_not_data _ (fun b bs hb => hfile b bs hb))

theorem set_default_value_from_path_undef (env : Env) (r : GlobalRef) (path : CStr)
    (g : Globals) (hpp : ∀ pp, Globals.path_prefix g ≠ Ptr.str pp) :
    set_default_value_from_path env r path g = none := by
  unfold set_default_value_from_path
  split
  · rfl
  · rfl
  · rename_i pp h
    exact absurd h (hpp pp)

/-! ### The steps of `init_globals` -/

theorem set_version_url_none_eq (env : Env) (g : Globals) (pp : CStr)
    (hpp : Globals.path_prefix g = Ptr.str pp) (hv : g.version_url = none) :
    set_version_url env none g =
      match env.file (pp ++ default_version_url_path) with
      | File.data (b :: bs) => some (0, { g with version_url := some (kept_line (b :: bs)) })
      | _ => some (-1, g) := by
  unfold set_version_url set_url
  simp only [hv, Globals.deref]
  rw [set_default_value_from_path_eq env _ _ pp g hpp]
  split <;> simp_all [Globals.assign]

theorem set_content_url_none_eq (env : Env) (g : Globals) (pp : CStr)
    (hpp : Globals.path_prefix g = Ptr.str pp) (hv : g.content_url = none) :
    set_content_url env none g =
      match env.file (pp ++ default_content_url_path) with
      | File.data (b :: bs) => some (0, { g with content_url := some (kept_line (b :: bs)) })
      | _ => some (-1, g) := by
  unfold set_content_url set_url
  simp only [hv, Globals.deref]
  rw [set_default_value_from_path_eq env _ _ pp g hpp]
  split <;> simp_all [Globals.assign]

theorem init_version_url_eq (env : Env) (g : Globals) (k : Globals → InitResult) (pp : CStr)
    (hpp : Globals.path_prefix g = Ptr.str pp) :
    init_version_url env g k =
      match resolved_url g.version_url (env.file (pp ++ default_version_url_path))
          env.VERSIONURL with
      | some v => k { g with version_url := some v }
      | none => InitResult.exit_failure g := by
  cases hv : g.version_url with
  | some v =>
    have hg : { g with version_url := some v } = g := by
      cases g; simp_all
    simp [init_version_url, set_version_url, hv, resolved_url, hg]
  | none =>
    unfold init_version_url
    rw [set_version_url_none_eq env g pp hpp hv]
    cases hf : env.file (pp ++ default_version_url_path) with
    | absent =>
      cases hc : env.VERSIONURL <;>
        simp [resolved_url, hc, set_version_url, hv, set_url, Globals.assign]
    | unreadable =>
      cases hc : env.VERSIONURL <;>
        simp [resolved_url, hc, set_version_url, hv, set_url, Globals.assign]
    | data bytes =>
      cases bytes with
      | nil =>
        cases hc : env.VERSIONURL <;>
          simp [resolved_url, hc, set_version_url, hv, set_url, Globals.assign]
      | cons b bs => simp [resolved_url]

theorem init_content_url_eq (env : Env) (g : Globals) (k : Globals → InitResult) (pp : CStr)
    (hpp : Globals.path_prefix g = Ptr.str pp) :
    init_content_url env g k =
      match resolved_url g.content_url (env.file (pp ++ default_content_url_path))
          env.CONTENTURL with
      | some v => k { g with content_url := some v }
      | none => InitResult.exit_failure g := by
  cases hv : g.content_url with
  | some v =>
    have hg : { g with content_url := some v } = g := by
      cases g; simp_all
    simp [init_content_url, set_content_url, hv, resolved_url, hg]
  | none =>
    unfold init_content_url
    rw [set_content_url_none_eq env g pp hpp hv]
    cases hf : env.file (pp ++ default_content_url_path) with
    | absent =>
      cases hc : env.CONTENTURL <;>
        simp [resolved_url, hc, set_content_url, hv, set_url, Globals.assign]
    | unreadable =>
      cases hc : env.CONTENTURL <;>
        simp [resolved_url, hc, set_content_url, hv, set_url, Globals.assign]
    | data bytes =>
      cases bytes with
      | nil =>
        cases hc : env.CONTENTURL <;>
          simp [resolved_url, hc, set_content_url, hv, set_url, Globals.assign]
      | cons b bs => simp [resolved_url]

theorem init_version_url_returned (env : Env) (g g1 : Globals) (k : Globals → InitResult)
    (b : Bool) (h : init_version_url env g k = InitResult.returned b g1) :
    ∃ g2, k g2 = InitResult.returned b g1 ∧ Globals.path_prefix g2 = Globals.path_prefix g ∧
      g2.content_url = g.content_url ∧ g2.version_url ≠ none ∧
      (∀ v, g.version_url = some v → g2.version_url = some v) ∧
      (∀ pp, Globals.path_prefix g = Ptr.str pp →
        g2.version_url = resolved_url g.version_url
          (env.file (pp ++ default_version_url_path)) env.VERSIONURL) := by
  cases hv : g.version_url with
  | some v =>
    refine ⟨g, ?_, rfl, rfl, ?_, ?_, ?_⟩
    · simpa [init_version_url, set_version_url, hv] using h
    · simp [hv]
    · intro w hw; rw [hv]; exact hw
    · intro pp _; simp [hv, resolved_url]
  | none =>
    cases hp : Globals.path_prefix g with
    | str pp =>
      rw [init_version_url_eq env g k pp hp] at h
      split at h
      · rename_i v hres
        refine ⟨_, h, hp, rfl, by simp, ?_, ?_⟩
        · intro w hw; simp at hw
        · intro pp1 hpp1
          simp only [Ptr.str.injEq] at hpp1
          subst hpp1
          rw [← hv, hres]
      · exact absurd h (by simp)
    | null =>
      have hu : set_version_url env none g = none := by
        simp only [set_version_url, hv, set_url, Globals.deref]
        exact set_default_value_from_path_undef env _ _ g (by simp [hp])
      simp [init_version_url, hu] at h
    | freed =>
      have hu : set_version_url env none g = none := by
        simp only [set_version_url, hv, set_url, Globals.deref]
        exact set_default_value_from_path_undef env _ _ g (by simp [hp])
      simp [init_version_url, hu] at h

theorem init_content_url_returned (env : Env) (g g1 : Globals) (k : Globals → InitResult)
    (b : Bool) (h : init_content_url env g k = InitResult.returned b g1) :
    ∃ g2, k g2 = InitResult.returned b g1 ∧ Globals.path_prefix g2 = Globals.path_prefix g ∧
      g2.version_url = g.version_url ∧ g2.content_url ≠ none ∧
      (∀ v, g.content_url = some v → g2.content_url = some v) ∧
      (∀ pp, Globals.path_prefix g = Ptr.str pp →
        g2.content_url = resolved_url g.content_url
          (env.file (pp ++ default_content_url_path)) env.CONTENTURL) := by
  cases hv : g.content_url with
  | some v =>
    refine ⟨g, ?_, rfl, rfl, ?_, ?_, ?_⟩
    · simpa [init_content_url, set_content_url, hv] using h
    · simp [hv]
    · intro w hw; rw [hv]; exact hw
    · intro pp _; simp [hv, resolved_url]
  | none =>
    cases hp : Globals.path_prefix g with
    | str pp =>
      rw [init_content_url_eq env g k pp hp] at h
      split at h
      · rename_i v hres
        refine ⟨_, h, hp, rfl, by simp, ?_, ?_⟩
        · intro w hw; simp at hw
        · intro pp1 hpp1
          simp only [Ptr.str.injEq] at hpp1
          subst hpp1
          rw [← hv, hres]
      · exact absurd h (by simp)
    | null =>
      have hu : set_content_url env none g = none := by
        simp only [set_content_url, hv, set_url, Globals.deref]
        exact set_default_value_from_path_undef env _ _ g (by simp [hp])
      simp [init_content_url, hu] at h
    | freed =>
      have hu : set_content_url env none g = none := by
        simp only [set_content_url, hv, set_url, Globals.deref]
        exact set_default_value_from_path_undef env _ _ g (by simp [hp])
      simp [init_content_url, hu] at h

theorem set_format_string_frame (env : Env) (value : Option CStr) (g g1 : Globals)
    (ret : Bool) (h : set_format_string env value g = some (ret, g1)) :
    Globals.path_prefix g1 = Globals.path_prefix g ∧ g1.version_url = g.version_url ∧
      g1.content_url = g.content_url := by
  rcases set_format_string_cases env value g g1 ret h with h1 | ⟨v, h1⟩ <;>
    (rw [h1]; exact ⟨rfl, rfl, rfl⟩)

theorem init_format_string_returned (env : Env) (g g1 : Globals) (k : Globals → InitResult)
    (b : Bool) (h : init_format_string env g k = InitResult.returned b g1) :
    ∃ g2, k g2 = InitResult.returned b g1 ∧ Globals.path_prefix g2 = Globals.path_prefix g ∧
      g2.version_url = g.version_url ∧ g2.content_url = g.content_url := by
  unfold init_format_string at h
  cases hset : set_format_string env none g with
  | none => simp [hset] at h
  | some p =>
    obtain ⟨ok, ga⟩ := p
    have hfa := set_format_string_frame env none g ga ok hset
    rw [hset] at h
    cases ok with
    | true => exact ⟨ga, by simpa using h, hfa⟩
    | false =>
      cases hf : env.FORMATID with
      | none => simp [hf] at h
      | some f =>
        cases hset2 : set_format_string env (some f) ga with
        | none => simp [hf, hset2] at h
        | some q =>
          obtain ⟨r, gb⟩ := q
          have hfb := set_format_string_frame env (some f) ga gb r hset2
          exact ⟨gb, by simpa [hf, hset2] using h, hfb.1.trans hfa.1,
            hfb.2.1.trans hfa.2.1, hfb.2.2.trans hfa.2.2⟩

theorem set_format_string_given_defined (env : Env) (u : CStr) (g : Globals) :
    ∃ ok g1, set_format_string env (some u) g = some (ok, g1) := by
  unfold set_format_string
  split
  · exact ⟨_, _, rfl⟩
  · simp only
    split
    · exact ⟨_, _, rfl⟩
    · split
      · exact ⟨_, _, rfl⟩
      · exact ⟨_, _, rfl⟩

theorem set_format_string_default_defined (env : Env) (g : Globals) (pp : CStr)
    (hpp : Globals.path_prefix g = Ptr.str pp) :
    ∃ ok g1, set_format_string env none g = some (ok, g1) := by
  unfold set_format_string
  cases hfs : g.format_string with
  | some v => exact ⟨_, _, rfl⟩
  | none =>
    simp only
    rw [set_default_value_from_path_eq env _ _ pp g hpp]
    cases hfile : env.file (pp ++ default_format_path) with
    | absent => exact ⟨false, g, by simp⟩
    | unreadable => exact ⟨false, g, by simp⟩
    | data bytes =>
      cases bytes with
      | nil => exact ⟨false, g, by simp⟩
      | cons c cs =>
        simp only [Globals.assign]
        by_cases hval : is_valid_integer_format (kept_line (c :: cs)) = true
        · exact ⟨true, { g with format_string := some (kept_line (c :: cs)) }, by simp [hval]⟩
        · exact ⟨false, { g with format_string := some (kept_line (c :: cs)) }, by simp [hval]⟩

theorem init_format_string_forward (env : Env) (g : Globals) (k : Globals → InitResult)
    (pp : CStr) (hpp : Globals.path_prefix g = Ptr.str pp) :
    ∃ g2, Globals.path_prefix g2 = Globals.path_prefix g ∧ g2.version_url = g.version_url ∧
      g2.content_url = g.content_url ∧
      (init_format_string env g k = k g2 ∨
        init_format_string env g k = InitResult.exit_failure g2) := by
  obtain ⟨ok, ga, hset⟩ := set_format_string_default_defined env g pp hpp
  have hfa := set_format_string_frame env none g ga ok hset
  unfold init_format_string
  rw [hset]
  cases ok with
  | true => exact ⟨ga, hfa.1, hfa.2.1, hfa.2.2, Or.inl (by simp)⟩
  | false =>
    cases hf : env.FORMATID with
    | none => exact ⟨ga, hfa.1, hfa.2.1, hfa.2.2, Or.inr (by simp)⟩
    | some f =>
      obtain ⟨r, gb, hset2⟩ := set_format_string_given_defined env f ga
      have hfb := set_format_string_frame env (some f) ga gb r hset2
      exact ⟨gb, hfb.1.trans hfa.1, hfb.2.1.trans hfa.2.1, hfb.2.2.trans hfa.2.2,
        Or.inl (by simp [hset2])⟩

theorem set_state_dir_default (env : Env) (g : Globals) :
    ∃ ga, set_state_dir env none g = (true, ga) ∧ Globals.path_prefix ga = Globals.path_prefix g ∧
      ga.version_url = g.version_url ∧ ga.content_url = g.content_url := by
  cases hs : g.state_dir with
  | none =>
    exact ⟨{ g with state_dir := some env.STATE_DIR }, by simp [set_state_dir, hs], rfl, rfl, rfl⟩
  | some v => exact ⟨g, by simp [set_state_dir, hs], rfl, rfl, rfl⟩

theorem init_globals_returned_true (env : Env) (g g1 : Globals)
    (h : init_globals env g = InitResult.returned true g1) :
    ∃ gb, init_defaults env gb = InitResult.returned true g1 ∧
      gb.version_url = g.version_url ∧ gb.content_url = g.content_url := by
  obtain ⟨ga, hsd, _, hv, hc⟩ := set_state_dir_default env g
  unfold init_globals at h
  rw [hsd] at h
  simp only at h
  cases hsp : set_path_prefix env none ga with
  | none => simp [hsp] at h
  | some p =>
    obtain ⟨ok, gb⟩ := p
    rw [hsp] at h
    have hfr := set_path_prefix_frame env none ga gb ok hsp
    cases ok with
    | false => simp at h
    | true =>
      refine ⟨gb, by simpa using h, ?_, ?_⟩
      · rw [hfr]; exact hv
      · rw [hfr]; exact hc

theorem init_defaults_returned (env : Env) (g g1 : Globals) (b : Bool)
    (h : init_defaults env g = InitResult.returned b g1) :
    Globals.path_prefix g1 = Globals.path_prefix g ∧
    (∀ v, g.version_url = some v → g1.version_url = some v) ∧
    (∀ v, g.content_url = some v → g1.content_url = some v) ∧
    g1.version_url ≠ none ∧ g1.content_url ≠ none ∧
    (∀ pp, Globals.path_prefix g = Ptr.str pp →
      g1.version_url = resolved_url g.version_url
        (env.file (pp ++ default_version_url_path)) env.VERSIONURL ∧
      g1.content_url = resolved_url g.content_url
        (env.file (pp ++ default_content_url_path)) env.CONTENTURL) := by
  unfold init_defaults at h
  obtain ⟨g3, h3, hp3, hv3, hc3⟩ := init_format_string_returned env g g1 _ b h
  obtain ⟨g4, h4, hp4, hc4, hvne, hvset, hvres⟩ := init_version_url_returned env g3 g1 _ b h3
  obtain ⟨g5, h5, hp5, hv5, hcne, hcset, hcres⟩ := init_content_url_returned env g4 g1 _ b h4
  simp only [InitResult.returned.injEq, set_local_download] at h5
  have hfin : Globals.path_prefix g1 = Globals.path_prefix g5 ∧ g1.version_url = g5.version_url ∧
      g1.content_url = g5.content_url := by
    rw [← h5.2]
    split
    · rcases set_cert_path_cases env none g5 with hcp | ⟨v, hcp⟩ <;>
        (rw [hcp]; exact ⟨rfl, rfl, rfl⟩)
    · exact ⟨rfl, rfl, rfl⟩
  refine ⟨?_, ?_, ?_, ?_, ?_, ?_⟩
  · rw [hfin.1, hp5, hp4, hp3]
  · intro v hv
    rw [hfin.2.1, hv5]
    exact hvset v (by rw [hv3]; exact hv)
  · intro v hv
    rw [hfin.2.2]
    exact hcset v (by rw [hc4, hc3]; exact hv)
  · rw [hfin.2.1, hv5]; exact hvne
  · rw [hfin.2.2]; exact hcne
  · intro pp hpp
    constructor
    · rw [hfin.2.1, hv5, hvres pp (by rw [hp3]; exact hpp), hv3]
    · rw [hfin.2.2, hcres pp (by rw [hp4, hp3]; exact hpp), hc4, hc3]

theorem init_defaults_exit (env : Env) (g : Globals) (pp : CStr)
    (hpp : Globals.path_prefix g = Ptr.str pp)
    (hres : resolved_url g.version_url (env.file (pp ++ default_version_url_path))
          env.VERSIONURL = none ∨
        resolved_url g.content_url (env.file (pp ++ default_content_url_path))
          env.CONTENTURL = none) :
    ∃ g1, init_defaults env g = InitResult.exit_failure g1 := by
  unfold init_defaults
  obtain ⟨g3, hp3, hv3, hc3, hstep | hstep⟩ := init_format_string_forward env g
    (fun g3 => init_version_url env g3 fun g4 => init_content_url env g4 fun g5 =>
      InitResult.returned true
        (if env.SIGNATURES then set_cert_path env none (set_local_download g5)
         else set_local_download g5))
    pp hpp
  · rw [hstep, init_version_url_eq env g3 _ pp (by rw [hp3]; exact hpp), hv3]
    cases hrv : resolved_url g.version_url (env.file (pp ++ default_version_url_path))
        env.VERSIONURL with
    | none => exact ⟨_, rfl⟩
    | some v =>
      simp only
      rw [init_content_url_eq env _ _ pp (by simpa [hp3] using hpp)]
      have hrc : resolved_url g.content_url (env.file (pp ++ default_content_url_path))
          env.CONTENTURL = none := by
        rcases hres with h1 | h1
        · rw [hrv] at h1; exact absurd h1 (by simp)
        · exact h1
      simp only [hc3, hrc]
      exact ⟨_, rfl⟩
  · exact ⟨_, hstep⟩

theorem kept_line_long :
    kept_line (List.replicate 3000 'a' ++ ['\n']) = List.replicate 2047 'a' := by
  have hle : LINE_MAX - 1 ≤ (List.replicate 3000 'a').length := by
    rw [List.length_replicate]; decide
  have hmin : min (LINE_MAX - 1) 3000 = 2047 := by decide
  have hp : (fun c : Char => c != '\n' && c != '\x00') 'a' = true := by decide
  unfold kept_line
  rw [List.take_append_of_le_length hle, List.take_replicate, hmin, List.takeWhile_replicate,
    if_pos hp]

theorem strip_newline_long :
    strip_newline (List.replicate 3000 'a' ++ ['\n']) = List.replicate 3000 'a' := by
  unfold strip_newline
  have hall : ∀ c ∈ List.replicate 3000 'a', (fun c : Char => decide (c ≠ '\n')) c = true := by
    intro c hc
    rw [List.eq_of_mem_replicate hc]
    decide
  have hnl : List.takeWhile (fun c : Char => decide (c ≠ '\n')) ['\n'] = [] := rfl
  rw [List.takeWhile_append_of_pos hall, hnl, List.append_nil]

theorem init_globals_long_url :
    init_globals env_long_url Globals.init
      = InitResult.returned true
          (Globals.mk (some "3".toList) (Ptr.str "/".toList) none none
            (some "/var/lib/swupd".toList) (some (List.replicate 2047 'a'))
            (some "https://example.com/update".toList) none) := by
  have hsd : set_state_dir env_long_url none Globals.init
      = (true, { Globals.init with state_dir := some "/var/lib/swupd".toList }) := rfl
  have hsp : set_path_prefix env_long_url none
        { Globals.init with state_dir := some "/var/lib/swupd".toList }
      = some (true, Globals.mk none (Ptr.str "/".toList) none none
          (some "/var/lib/swupd".toList) none none none) := rfl
  have hf1 : set_format_string env_long_url none
        (Globals.mk none (Ptr.str "/".toList) none none (some "/var/lib/swupd".toList)
          none none none)
      = some (false, Globals.mk none (Ptr.str "/".toList) none none
          (some "/var/lib/swupd".toList) none none none) := rfl
  have hf2 : set_format_string env_long_url (some "3".toList)
        (Globals.mk none (Ptr.str "/".toList) none none (some "/var/lib/swupd".toList)
          none none none)
      = some (true, Globals.mk (some "3".toList) (Ptr.str "/".toList) none none
          (some "/var/lib/swupd".toList) none none none) := rfl
  have hfile : env_long_url.file ("/".toList ++ default_version_url_path)
      = File.data ('a' :: (List.replicate 2999 'a' ++ ['\n'])) := rfl
  have hrv : resolved_url none (env_long_url.file ("/".toList ++ default_version_url_path))
      env_long_url.VERSIONURL = some (List.replicate 2047 'a') := by
    rw [hfile]
    show some (kept_line (List.replicate 3000 'a' ++ ['\n'])) = _
    rw [kept_line_long]
  have hrc : resolved_url none (env_long_url.file ("/".toList ++ default_content_url_path))
      env_long_url.CONTENTURL = some "https://example.com/update".toList := rfl
  have hF : env_long_url.FORMATID = some "3".toList := rfl
  have hS : env_long_url.SIGNATURES = false := rfl
  unfold init_globals
  rw [hsd]
  simp only
  rw [hsp]
  simp only
  unfold init_defaults init_format_string
  rw [hf1]
  simp only [Bool.not_false, if_true, hF]
  rw [hf2]
  simp only
  rw [init_version_url_eq env_long_url _ _ "/".toList rfl]
  simp only
  rw [hrv]
  simp only
  rw [init_content_url_eq env_long_url _ _ "/".toList rfl]
  simp only
  rw [hrc]
  simp only [hS]
  rfl

/-- C10 (counterexample). The version-url default file holds one line of
3000 letters; `init_globals` returns true from the initial state with a
`version_url` of only 2047 letters, which is not the first line of the file
with its newline stripped. -/
theorem init_globals_truncates_long_url :
    init_globals env_long_url Globals.init
      = InitResult.returned true
          (Globals.mk (some "3".toList) (Ptr.str "/".toList) none none
            (some "/var/lib/swupd".toList) (some (List.replicate 2047 'a'))
            (some "https://example.com/update".toList) none) ∧
    env_long_url.file ("/".toList ++ default_version_url_path)
      = File.data (List.replicate 3000 'a' ++ ['\n']) ∧
    strip_newline (List.replicate 3000 'a' ++ ['\n']) = List.replicate 3000 'a' ∧
    List.replicate 2047 'a' ≠ List.replicate 3000 'a' := by
  refine ⟨init_globals_long_url, rfl, strip_newline_long, ?_⟩
  intro h
  have hlen := congrArg List.length h
  rw [List.length_replicate, List.length_replicate] at hlen
  exact absurd hlen (by decide)

/-- C10 (amended). When `init_globals` returns true, each of `version_url`
and `content_url` is set; a value set beforehand is kept; and, `path_prefix`
being a live string, the value is the one `resolved_url` gives: the value set
beforehand, else the kept line of the default file under `path_prefix` (what
precedes the first newline or NUL among its first `LINE_MAX - 1` bytes) when
that file can be read and is not empty, else the compile-time constant.
When `path_prefix` is a live string, or is unset with `/` a directory, and
for one of the two urls none of the three sources is available, `init_globals`
ends in `exit(EXIT_FAILURE)`. -/
theorem init_globals_url_precedence (env : Env) (g : Globals) :
    (∀ g1, init_globals env g = InitResult.returned true g1 →
      (∀ v, g.version_url = some v → g1.version_url = some v) ∧
      (∀ v, g.content_url = some v → g1.content_url = some v) ∧
      g1.version_url ≠ none ∧ g1.content_url ≠ none ∧
      (∀ pp, Globals.path_prefix g1 = Ptr.str pp →
        g1.version_url = resolved_url g.version_url
          (env.file (pp ++ default_version_url_path)) env.VERSIONURL ∧
        g1.content_url = resolved_url g.content_url
          (env.file (pp ++ default_content_url_path)) env.CONTENTURL)) ∧
    (∀ pp, ( Globals.path_prefix g = Ptr.str pp ∨
          ( Globals.path_prefix g = Ptr.null ∧ pp = ['/'] ∧ env.is_dir ['/'] = true)) →
      (resolved_url g.version_url (env.file (pp ++ default_version_url_path))
          env.VERSIONURL = none ∨
        resolved_url g.content_url (env.file (pp ++ default_content_url_path))
          env.CONTENTURL = none) →
      ∃ g1, init_globals env g = InitResult.exit_failure g1) := by
  constructor
  · intro g1 h
    obtain ⟨gb, hdef, hv, hc⟩ := init_globals_returned_true env g g1 h
    obtain ⟨hp, hvset, hcset, hvne, hcne, hres⟩ := init_defaults_returned env gb g1 true hdef
    refine ⟨?_, ?_, hvne, hcne, ?_⟩
    · intro v hgv
      exact hvset v (by rw [hv]; exact hgv)
    · intro v hgc
      exact hcset v (by rw [hc]; exact hgc)
    · intro pp hpp
      have := hres pp (by rw [← hp]; exact hpp)
      rw [hv, hc] at this
      exact this
  · intro pp hpp hres
    obtain ⟨ga, hsd, hpa, hva, hca⟩ := set_state_dir_default env g
    unfold init_globals
    rw [hsd]
    simp only
    rcases hpp with hpp | ⟨hnull, hroot, hdir⟩
    · have hsp : set_path_prefix env none ga = some (true, ga) := by
        simp [ set_path_prefix, hpa, hpp]
      rw [hsp]
      simp only
      exact init_defaults_exit env ga pp (by rw [hpa]; exact hpp) (by rw [hva, hca]; exact hres)
    · have hsp : set_path_prefix env none ga
          = some (true, { ga with path_prefix := Ptr.str ['/'] }) := by
        simp [ set_path_prefix, hpa, hnull, stat_path_prefix, hdir]
      rw [hsp]
      simp only
      subst hroot
      exact init_defaults_exit env _ ['/'] rfl (by simpa [hva, hca] using hres)

/-- Witness of C10 (amended): for the long default file the stored
`version_url` is its kept line, and `content_url` is the compile-time
constant. -/
theorem init_globals_url_precedence_witness :
    (some (List.replicate 2047 'a') : Option CStr)
      = resolved_url none (env_long_url.file ("/".toList ++ default_version_url_path))
          env_long_url.VERSIONURL ∧
    (some "https://example.com/update".toList : Option CStr)
      = resolved_url none (env_long_url.file ("/".toList ++ default_content_url_path))
          env_long_url.CONTENTURL :=
  ((init_globals_url_precedence env_long_url Globals.init).1
    (Globals.mk (some "3".toList) (Ptr.str "/".toList) none none
      (some "/var/lib/swupd".toList) (some (List.replicate 2047 'a'))
      (some "https://example.com/update".toList) none) init_globals_long_url).2.2.2.2
    "/".toList rfl

/-! ### The format default file -/

/-- C11 (counterexample). With the format default file holding the line
"staging", `set_format_string(NULL)` returns false (leaving "staging"
stored), while `set_format_string("staging")` returns true from the same
state. -/
theorem default_file_staging_rejected :
    kept_line "staging\n".toList = "staging".toList ∧
    set_format_string env_format_staging none
        (Globals.mk none (Ptr.str "/".toList) none none none none none none)
      = some (false, Globals.mk (some "staging".toList) (Ptr.str "/".toList) none none none
          none none none) ∧
    set_format_string env_format_staging (some "staging".toList)
        (Globals.mk none (Ptr.str "/".toList) none none none none none none)
      = some (true, Globals.mk (some "staging".toList) (Ptr.str "/".toList) none none none
          none none none) := by
  refine ⟨rfl, rfl, rfl⟩

/-- C11 (amended). With `format_string` unset, a live `path_prefix` and a
format default file that can be read and is not empty, whose kept line `L` is
not "staging": `set_format_string(NULL)` and `set_format_string(L)` return
the same value, and when that value is true both store `L`. -/
theorem default_format_validated_like_input (env : Env) (g : Globals) (pp : CStr)
    (b : Char) (bs : List Char) (hfs : g.format_string = none)
    (hpp : Globals.path_prefix g = Ptr.str pp)
    (hfile : env.file (pp ++ default_format_path) = File.data (b :: bs))
    (hne : kept_line (b :: bs) ≠ "staging".toList) :
    ∃ ok g1 g2, set_format_string env none g = some (ok, g1) ∧
      set_format_string env (some (kept_line (b :: bs))) g = some (ok, g2) ∧
      (ok = true → g1 = { g with format_string := some (kept_line (b :: bs)) } ∧ g2 = g1) := by
  have hdef := set_default_value_from_path_eq env GlobalRef.format_string
    default_format_path pp g hpp
  rw [hfile] at hdef
  simp only at hdef
  by_cases hval : is_valid_integer_format (kept_line (b :: bs)) = true
  · refine ⟨true, { g with format_string := some (kept_line (b :: bs)) },
      { g with format_string := some (kept_line (b :: bs)) }, ?_, ?_, ?_⟩
    · simp [set_format_string, hfs, hdef, Globals.assign, hval]
    · simp [set_format_string, hfs, hne, hval]
    · intro _; exact ⟨rfl, rfl⟩
  · refine ⟨false, { g with format_string := some (kept_line (b :: bs)) }, g, ?_, ?_, ?_⟩
    · simp [set_format_string, hfs, hdef, Globals.assign, hval]
    · simp only [set_format_string, hfs, hne, if_false, hval]
      simp
    · intro h; exact absurd h (by decide)

/-- Witness of C11 (amended): with the format default file holding "0",
both calls return false. -/
theorem default_format_validated_like_input_witness :
    ∃ ok g1 g2, set_format_string env_format_zero none
        (Globals.mk none (Ptr.str "/".toList) none none none none none none) = some (ok, g1) ∧
      set_format_string env_format_zero (some (kept_line "0\n".toList))
        (Globals.mk none (Ptr.str "/".toList) none none none none none none) = some (ok, g2) ∧
      (ok = true →
        g1 = { Globals.mk none (Ptr.str "/".toList) none none none none none none with
                format_string := some (kept_line "0\n".toList) } ∧ g2 = g1) :=
  default_format_validated_like_input env_format_zero
    (Globals.mk none (Ptr.str "/".toList) none none none none none none) "/".toList
    '0' "\n".toList rfl rfl rfl (by decide)

/-! ### Teardown -/

/-- C12 (the code at the failing input). In a build with `SIGNATURES`,
`init_globals` from the initial state sets `cert_path`; `free_globals` then
resets every other string global and leaves `cert_path` set, and so does a
second `free_globals`. -/
theorem free_globals_keeps_cert_path :
    init_globals env_signed Globals.init
      = InitResult.returned true
          (Globals.mk (some "3".toList) (Ptr.str "/".toList) none none
            (some "/var/lib/swupd".toList) (some "https://example.com/update".toList)
            (some "https://example.com/update".toList)
            (some "/usr/share/clear/update-ca/Swupd_Root.pem".toList)) ∧
    free_globals
        (Globals.mk (some "3".toList) (Ptr.str "/".toList) none none
          (some "/var/lib/swupd".toList) (some "https://example.com/update".toList)
          (some "https://example.com/update".toList)
          (some "/usr/share/clear/update-ca/Swupd_Root.pem".toList))
      = some (Globals.mk none Ptr.null none none none none none
          (some "/usr/share/clear/update-ca/Swupd_Root.pem".toList)) ∧
    free_globals (Globals.mk none Ptr.null none none none none none
        (some "/usr/share/clear/update-ca/Swupd_Root.pem".toList))
      = some (Globals.mk none Ptr.null none none none none none
          (some "/usr/share/clear/update-ca/Swupd_Root.pem".toList)) := by
  refine ⟨rfl, rfl, rfl⟩

/-! ### The timing list -/

/-- C19 (the code at the failing input). With instrumentation enabled,
`grabtime_stop` on the empty list, as `init_timelist` returns it or as
`print_time_stats` leaves it, reads `t->complete` through a null pointer:
the call is undefined. -/
theorem grabtime_stop_empty_list (now : Nat → Timespec × Timespec) :
    grabtime_stop now ⟨true, init_timelist⟩ = none ∧
    (print_time_stats
        ⟨true, Timelist.live [⟨"A".toList, ⟨1, 0⟩, ⟨1, 0⟩, ⟨2, 0⟩, ⟨2, 0⟩, true⟩]⟩).map Prod.snd
      = some ⟨true, Timelist.live []⟩ ∧
    grabtime_stop now ⟨true, Timelist.live []⟩ = none := by
  refine ⟨rfl, rfl, rfl⟩

theorem run_ops_disabled (ops : List Op) : ∀ s : Timing, s.verbose_time = false →
    run_ops ops s = some (s, []) := by
  induction ops with
  | nil => intro s _; rfl
  | cons op os ih =>
    intro s hs
    cases op with
    | start ok name raw proc =>
      have h1 : grabtime_start ok raw proc name s = s := by simp [grabtime_start, hs]
      simp only [run_ops, h1]
      exact ih s hs
    | stop now =>
      have h1 : grabtime_stop now s = some s := by simp [grabtime_stop, hs]
      simp only [run_ops, h1]
      exact ih s hs
    | print =>
      have h1 : print_time_stats s = some ([], s) := by simp [print_time_stats, hs]
      simp only [run_ops, h1, ih s hs, List.nil_append]

/-- C20. `grabtime_start` with instrumentation disabled changes nothing;
enabled and with memory, it puts one new interval first in the list, with the
given name and the clock readings, not complete, before the old elements
unchanged; enabled and without memory, it empties the list and disables
instrumentation, after which every sequence of start, stop and
`print_time_stats` calls changes nothing and writes nothing. -/
theorem grabtime_start_postcondition (calloc_ok : Bool) (raw proc : Timespec) (name : CStr)
    (s : Timing) :
    (s.verbose_time = false → grabtime_start calloc_ok raw proc name s = s) ∧
    (s.verbose_time = true → calloc_ok = true →
      grabtime_start calloc_ok raw proc name s
        = ⟨s.verbose_time,
            Timelist.live (⟨name, raw, proc, ⟨0, 0⟩, ⟨0, 0⟩, false⟩ :: s.head.items)⟩) ∧
    (s.verbose_time = true → calloc_ok = false →
      grabtime_start calloc_ok raw proc name s = ⟨false, s.head.emptied⟩ ∧
      (grabtime_start calloc_ok raw proc name s).head.items = [] ∧
      ∀ ops : List Op, run_ops ops (grabtime_start calloc_ok raw proc name s)
        = some (⟨false, s.head.emptied⟩, [])) := by
  refine ⟨?_, ?_, ?_⟩
  · intro h
    simp [grabtime_start, h]
  · intro h hok
    simp [grabtime_start, h, hok, alloc_time, Time.zero]
  · intro h hok
    have h1 : grabtime_start calloc_ok raw proc name s = ⟨false, s.head.emptied⟩ := by
      simp [grabtime_start, h, hok, alloc_time]
    refine ⟨h1, ?_, ?_⟩
    · rw [h1]
      cases s.head <;> rfl
    · intro ops
      rw [h1]
      exact run_ops_disabled ops ⟨false, s.head.emptied⟩ rfl

/-- Witness of C20: a start without memory on a list of one interval, then
any sequence of calls. -/
theorem grabtime_start_postcondition_witness :
    grabtime_start false ⟨5, 0⟩ ⟨5, 0⟩ "B".toList
        ⟨true, Timelist.live [⟨"A".toList, ⟨1, 0⟩, ⟨1, 0⟩, ⟨0, 0⟩, ⟨0, 0⟩, false⟩]⟩
      = ⟨false, Timelist.live []⟩ ∧
    (grabtime_start false ⟨5, 0⟩ ⟨5, 0⟩ "B".toList
        ⟨true, Timelist.live [⟨"A".toList, ⟨1, 0⟩, ⟨1, 0⟩, ⟨0, 0⟩, ⟨0, 0⟩, false⟩]⟩).head.items
      = [] ∧
    ∀ ops : List Op, run_ops ops (grabtime_start false ⟨5, 0⟩ ⟨5, 0⟩ "B".toList
        ⟨true, Timelist.live [⟨"A".toList, ⟨1, 0⟩, ⟨1, 0⟩, ⟨0, 0⟩, ⟨0, 0⟩, false⟩]⟩)
      = some (⟨false, Timelist.live []⟩, []) :=
  (grabtime_start_postcondition false ⟨5, 0⟩ ⟨5, 0⟩ "B".toList
    ⟨true, Timelist.live [⟨"A".toList, ⟨1, 0⟩, ⟨1, 0⟩, ⟨0, 0⟩, ⟨0, 0⟩, false⟩]⟩).2.2 rfl rfl

theorem Timelist.items_live (l : List Time) : (Timelist.live l).items = l := rfl

theorem Timelist.items_fresh : Timelist.fresh.items = [] := rfl

theorem starts_append (l1 l2 : List Call) : starts (l1 ++ l2) = starts l1 + starts l2 := by
  induction l1 with
  | nil => simp [starts]
  | cons c cs ih =>
    cases c with
    | start name raw proc =>
      rw [List.cons_append]
      simp only [starts]
      rw [ih]
      omega
    | stop now =>
      rw [List.cons_append]
      simp only [starts]
      rw [ih]

theorem stops_append (l1 l2 : List Call) : stops (l1 ++ l2) = stops l1 + stops l2 := by
  induction l1 with
  | nil => simp [stops]
  | cons c cs ih =>
    cases c with
    | start name raw proc =>
      rw [List.cons_append]
      simp only [stops]
      rw [ih]
    | stop now =>
      rw [List.cons_append]
      simp only [stops]
      rw [ih]
      omega

theorem nested_from_of_counts (cs : List Call) : ∀ d : Nat,
    (∀ k, stops (cs.take k) ≤ d + starts (cs.take k)) → d + starts cs = stops cs →
    nested_from d cs := by
  induction cs with
  | nil =>
    intro d _ h
    simp only [starts, stops] at h
    simpa [nested_from] using h
  | cons c cs ih =>
    intro d hpre hall
    cases c with
    | start name raw proc =>
      simp only [nested_from]
      apply ih (d + 1)
      · intro k
        have := hpre (k + 1)
        simp only [List.take_succ_cons, starts, stops] at this
        omega
      · simp only [starts, stops] at hall
        omega
    | stop now =>
      simp only [nested_from]
      have h1 := hpre 1
      simp only [List.take_succ_cons, List.take_zero, starts, stops] at h1
      refine ⟨by omega, ?_⟩
      apply ih (d - 1)
      · intro k
        have := hpre (k + 1)
        simp only [List.take_succ_cons, starts, stops] at this
        omega
      · simp only [starts, stops] at hall
        omega

theorem open_count_stop_foreach (now : Nat → Timespec × Timespec) (l : List Time) :
    ∀ k, open_count (stop_foreach now k l) = 0 ∧
      (stop_foreach now k l).map Time.name = l.map Time.name ∧
      (stop_foreach now k l).length = l.length := by
  induction l with
  | nil => intro k; simp [stop_foreach, open_count]
  | cons t ts ih =>
    intro k
    cases hc : t.complete with
    | true =>
      obtain ⟨h1, h2, h3⟩ := ih k
      simp [stop_foreach, hc, open_count, h1, h2, h3]
    | false =>
      obtain ⟨h1, h2, h3⟩ := ih (k + 1)
      simp [stop_foreach, hc, open_count, h1, h2, h3]

theorem all_complete_of_open_count (l : List Time) (h : open_count l = 0) :
    ∀ t ∈ l, t.complete = true := by
  induction l with
  | nil => intro t ht; simp at ht
  | cons a as ih =>
    simp only [open_count] at h
    intro t ht
    rcases List.mem_cons.mp ht with h1 | h1
    · subst h1
      by_contra hc
      simp [hc] at h
    · exact ih (by omega) t h1

theorem run_calls_nested (cs : List Call) : ∀ (s : Timing) (d : Nat),
    s.verbose_time = true → open_count s.head.items ≤ d → d ≤ s.head.items.length →
    nested_from d cs →
    ∃ f, run_calls cs s = some f ∧ f.verbose_time = true ∧
      f.head.items.map Time.name = (start_names cs).reverse ++ s.head.items.map Time.name ∧
      open_count f.head.items = 0 := by
  induction cs with
  | nil =>
    intro s d hv ho _ hn
    simp only [nested_from] at hn
    exact ⟨s, rfl, hv, by simp [start_names], by omega⟩
  | cons c cs ih =>
    intro s d hv ho hl hn
    cases c with
    | start name raw proc =>
      simp only [nested_from] at hn
      have hs : grabtime_start true raw proc name s
          = ⟨s.verbose_time,
              Timelist.live (⟨name, raw, proc, ⟨0, 0⟩, ⟨0, 0⟩, false⟩ :: s.head.items)⟩ := by
        simp [grabtime_start, hv, alloc_time, Time.zero]
      obtain ⟨f, hf, hfv, hfn, hfo⟩ := ih
        ⟨s.verbose_time,
          Timelist.live (⟨name, raw, proc, ⟨0, 0⟩, ⟨0, 0⟩, false⟩ :: s.head.items)⟩
        (d + 1) hv
        (by simp only [Timelist.items_live, open_count]; simp; omega)
        (by simp only [Timelist.items_live]; simp; omega) hn
      refine ⟨f, ?_, hfv, ?_, hfo⟩
      · simp only [run_calls, hs]
        exact hf
      · rw [hfn]
        simp [start_names, Timelist.items_live]
    | stop now =>
      simp only [nested_from] at hn
      obtain ⟨hd, hn⟩ := hn
      cases hh : s.head.items with
      | nil =>
        rw [hh] at hl
        simp at hl
        omega
      | cons t ts =>
        rw [hh] at ho hl
        cases hc : t.complete with
        | true =>
          obtain ⟨h1, h2, h3⟩ := open_count_stop_foreach now (t :: ts) 0
          have hs : grabtime_stop now s
              = some { s with head := Timelist.live (stop_foreach now 0 (t :: ts)) } := by
            simp [grabtime_stop, hv, hh, hc]
          obtain ⟨f, hf, hfv, hfn, hfo⟩ := ih
            { s with head := Timelist.live (stop_foreach now 0 (t :: ts)) } (d - 1) hv
            (by simp only [Timelist.items_live, h1]; omega)
            (by simp only [Timelist.items_live, h3]; omega) hn
          refine ⟨f, ?_, hfv, ?_, hfo⟩
          · simp only [run_calls, hs]
            exact hf
          · rw [hfn]
            simp only [Timelist.items_live, h2, start_names]
        | false =>
          have hs : grabtime_stop now s = some ⟨s.verbose_time, Timelist.live
              ({ t with rawstop := (now 0).1, procstop := (now 0).2, complete := true }
                :: ts)⟩ := by
            simp [grabtime_stop, hv, hh, hc]
          simp only [open_count, hc] at ho
          obtain ⟨f, hf, hfv, hfn, hfo⟩ := ih
            ⟨s.verbose_time, Timelist.live
              ({ t with rawstop := (now 0).1, procstop := (now 0).2, complete := true }
                :: ts)⟩
            (d - 1) hv
            (by simp only [Timelist.items_live, open_count]; simp at ho ⊢; omega)
            (by simp only [Timelist.items_live]; simp at hl ⊢; omega) hn
          refine ⟨f, ?_, hfv, ?_, hfo⟩
          · simp only [run_calls, hs]
            exact hf
          · rw [hfn]
            simp [start_names, Timelist.items_live]

theorem run_calls_length (cs : List Call) : ∀ (s f : Timing),
    s.verbose_time = true → run_calls cs s = some f →
    f.verbose_time = true ∧ f.head.items.length = s.head.items.length + starts cs := by
  induction cs with
  | nil =>
    intro s f hv h
    simp only [run_calls, Option.some.injEq] at h
    subst h
    exact ⟨hv, by simp [starts]⟩
  | cons c cs ih =>
    intro s f hv h
    cases c with
    | start name raw proc =>
      have hs : grabtime_start true raw proc name s
          = ⟨s.verbose_time,
              Timelist.live (⟨name, raw, proc, ⟨0, 0⟩, ⟨0, 0⟩, false⟩ :: s.head.items)⟩ := by
        simp [grabtime_start, hv, alloc_time, Time.zero]
      simp only [run_calls, hs] at h
      obtain ⟨h1, h2⟩ := ih
        ⟨s.verbose_time,
          Timelist.live (⟨name, raw, proc, ⟨0, 0⟩, ⟨0, 0⟩, false⟩ :: s.head.items)⟩ f hv h
      refine ⟨h1, ?_⟩
      rw [h2]
      simp only [Timelist.items_live, List.length_cons, starts]
      omega
    | stop now =>
      simp only [run_calls] at h
      cases hh : s.head.items with
      | nil => simp [grabtime_stop, hv, hh] at h
      | cons t ts =>
        cases hc : t.complete with
        | true =>
          have hs : grabtime_stop now s
              = some { s with head := Timelist.live (stop_foreach now 0 (t :: ts)) } := by
            simp [grabtime_stop, hv, hh, hc]
          rw [hs] at h
          obtain ⟨h1, h2⟩ := ih
            { s with head := Timelist.live (stop_foreach now 0 (t :: ts)) } f hv h
          refine ⟨h1, ?_⟩
          rw [h2]
          simp only [Timelist.items_live, (open_count_stop_foreach now (t :: ts) 0).2.2, starts, hh]
        | false =>
          have hs : grabtime_stop now s = some ⟨s.verbose_time, Timelist.live
              ({ t with rawstop := (now 0).1, procstop := (now 0).2, complete := true }
                :: ts)⟩ := by
            simp [grabtime_stop, hv, hh, hc]
          rw [hs] at h
          obtain ⟨h1, h2⟩ := ih
            ⟨s.verbose_time, Timelist.live
              ({ t with rawstop := (now 0).1, procstop := (now 0).2, complete := true }
                :: ts)⟩
            f hv h
          refine ⟨h1, ?_⟩
          rw [h2]
          simp only [Timelist.items_live, List.length_cons, starts, hh]

/-- C13. From the empty list with instrumentation enabled and allocation
succeeding, every well-nested sequence of `grabtime_start` and
`grabtime_stop` calls is defined, no stop in it meets an empty list, and the
final list has one interval for each start, the one started last first, with
the names passed to start, all of them complete. -/
theorem well_nested_timing (cs : List Call) (h : WellNested cs) :
    (∀ k now s, cs[k]? = some (Call.stop now) →
      run_calls (cs.take k) ⟨true, init_timelist⟩ = some s → s.head.items ≠ []) ∧
    ∃ f, run_calls cs ⟨true, init_timelist⟩ = some f ∧ f.verbose_time = true ∧
      f.head.items.length = starts cs ∧
      f.head.items.map Time.name = (start_names cs).reverse ∧
      ∀ t ∈ f.head.items, t.complete = true := by
  constructor
  · intro k now s hk hrun
    obtain ⟨_, hlen⟩ := run_calls_length (cs.take k) ⟨true, init_timelist⟩ s rfl hrun
    have hpre := h.2 (k + 1)
    rw [List.take_succ, hk, starts_append, stops_append] at hpre
    simp only [Option.toList, starts, stops, init_timelist, Timelist.items_fresh,
      List.length_nil] at hpre hlen
    intro hnil
    rw [hnil] at hlen
    simp at hlen
    omega
  · have hn : nested_from 0 cs :=
      nested_from_of_counts cs 0 (fun k => by have := h.2 k; omega) (by have := h.1; omega)
    obtain ⟨f, hf, hfv, hfn, hfo⟩ := run_calls_nested cs ⟨true, init_timelist⟩ 0 rfl
      (by simp [init_timelist, Timelist.items_fresh, open_count]) (by simp) hn
    obtain ⟨_, hlen⟩ := run_calls_length cs ⟨true, init_timelist⟩ f rfl hf
    refine ⟨f, hf, hfv, ?_, ?_, all_complete_of_open_count f.head.items hfo⟩
    · simpa [init_timelist, Timelist.items_fresh] using hlen
    · simpa [init_timelist, Timelist.items_fresh] using hfn

/-- Witness of C13: start "A", start "B", stop, stop leaves "B" and "A", both
complete. -/
theorem well_nested_timing_witness :
    ∃ f, run_calls [Call.start "A".toList ⟨1, 0⟩ ⟨1, 0⟩, Call.start "B".toList ⟨2, 0⟩ ⟨2, 0⟩,
        Call.stop now_example, Call.stop now_example] ⟨true, init_timelist⟩ = some f ∧
      f.verbose_time = true ∧
      f.head.items.length = starts [Call.start "A".toList ⟨1, 0⟩ ⟨1, 0⟩,
        Call.start "B".toList ⟨2, 0⟩ ⟨2, 0⟩, Call.stop now_example, Call.stop now_example] ∧
      f.head.items.map Time.name = (start_names [Call.start "A".toList ⟨1, 0⟩ ⟨1, 0⟩,
        Call.start "B".toList ⟨2, 0⟩ ⟨2, 0⟩, Call.stop now_example,
        Call.stop now_example]).reverse ∧
      ∀ t ∈ f.head.items, t.complete = true :=
  (well_nested_timing
    [Call.start "A".toList ⟨1, 0⟩ ⟨1, 0⟩, Call.start "B".toList ⟨2, 0⟩ ⟨2, 0⟩,
      Call.stop now_example, Call.stop now_example]
    ⟨rfl, fun k => by
      match k with
      | 0 => decide
      | 1 => decide
      | 2 => decide
      | 3 => decide
      | k + 4 => simp [starts, stops]⟩).2

/-! ### Reporting -/

theorem raw_pass_eq (n : Nat) : ∀ l : List Time, l.length ≤ n →
    raw_pass n l = (l.reverse.filter fun t => t.complete).map
      fun t => Line.stat (delta t.rawstart t.rawstop) t.name := by
  induction n with
  | zero =>
    intro l hl
    have : l = [] := List.length_eq_zero.mp (by omega)
    subst this
    rfl
  | succ n ih =>
    intro l hl
    rcases List.eq_nil_or_concat l with h | ⟨L, b, h⟩
    · subst h
      rfl
    · rw [List.concat_eq_append] at h
      subst h
      have hL : L.length ≤ n := by
        simp at hl
        omega
      simp only [raw_pass, List.getLast?_concat, List.dropLast_concat, ih L hL,
        List.reverse_append, List.reverse_cons, List.reverse_nil, List.nil_append,
        List.singleton_append]
      cases hc : b.complete <;> simp [List.filter, hc]

theorem cpu_pass_eq (n : Nat) : ∀ l : List Time, l.length ≤ n →
    cpu_pass n l = ((l.reverse.filter fun t => t.complete).map
      (fun t => Line.stat (delta t.procstart t.procstop) t.name), []) := by
  induction n with
  | zero =>
    intro l hl
    have : l = [] := List.length_eq_zero.mp (by omega)
    subst this
    rfl
  | succ n ih =>
    intro l hl
    rcases List.eq_nil_or_concat l with h | ⟨L, b, h⟩
    · subst h
      rfl
    · rw [List.concat_eq_append] at h
      subst h
      have hL : L.length ≤ n := by
        simp at hl
        omega
      simp only [cpu_pass, List.getLast?_concat, List.dropLast_concat, ih L hL,
        List.reverse_append, List.reverse_cons, List.reverse_nil, List.nil_append,
        List.singleton_append]
      cases hc : b.complete <;> simp [List.filter, hc]

theorem print_time_stats_live (l : List Time) :
    print_time_stats ⟨true, Timelist.live l⟩ =
      some (Line.raw_header ::
          ((l.reverse.filter fun t => t.complete).map
            fun t => Line.stat (delta t.rawstart t.rawstop) t.name)
        ++ Line.cpu_header ::
          ((l.reverse.filter fun t => t.complete).map
            fun t => Line.stat (delta t.procstart t.procstop) t.name),
        ⟨true, Timelist.live []⟩) := by
  simp only [print_time_stats, raw_pass_eq l.length l (le_refl _),
    cpu_pass_eq l.length l (le_refl _)]
  simp

/-- C15 (the code at the failing input). With instrumentation enabled,
`print_time_stats` on the list as `init_timelist` returns it, before any
start, reads through the dead `tqh_last`: the call is undefined, where a
report of no interval and an empty list are due.  On every list whose
`tqh_last` is live it writes, after each of its two headers, one line for
each complete interval and none for the others, the interval started first
coming first, and leaves the list empty. -/
theorem print_time_stats_fresh_list :
    print_time_stats ⟨true, init_timelist⟩ = none ∧
    ∀ l : List Time, print_time_stats ⟨true, Timelist.live l⟩ =
      some (Line.raw_header ::
          ((l.reverse.filter fun t => t.complete).map
            fun t => Line.stat (delta t.rawstart t.rawstop) t.name)
        ++ Line.cpu_header ::
          ((l.reverse.filter fun t => t.complete).map
            fun t => Line.stat (delta t.procstart t.procstop) t.name),
        ⟨true, Timelist.live []⟩) :=
  ⟨rfl, print_time_stats_live⟩

/-- C16 (the code at the failing input). An interval starts at 0 s
999000000 ns and stops at 1 s 0 ns, one millisecond later: both stamps are in
range and the stop is not earlier than the start, yet the value computed for
it is -998. -/
theorem delta_negative :
    Timespec.valid ⟨0, 999000000⟩ ∧ Timespec.valid ⟨1, 0⟩ ∧
    Timespec.le ⟨0, 999000000⟩ ⟨1, 0⟩ ∧
    delta ⟨0, 999000000⟩ ⟨1, 0⟩ = -998 ∧
    print_time_stats
        ⟨true, Timelist.live
          [⟨"A".toList, ⟨0, 999000000⟩, ⟨0, 999000000⟩, ⟨1, 0⟩, ⟨1, 0⟩, true⟩]⟩
      = some ([Line.raw_header, Line.stat (-998) "A".toList,
          Line.cpu_header, Line.stat (-998) "A".toList], ⟨true, Timelist.live []⟩) := by
  have hd : delta ⟨0, 999000000⟩ ⟨1, 0⟩ = -998 := by
    simp only [delta]
    norm_num
  refine ⟨by simp [Timespec.valid], by simp [Timespec.valid], by simp [Timespec.le], hd, ?_⟩
  rw [print_time_stats_live]
  simp only [List.reverse_cons, List.reverse_nil, List.nil_append, List.filter, List.map, hd]
  rfl

/-! ### The hash dump tool -/

/-- C17 (the code at the failing input). `hashdump_main` is called with one
file name and no options, the path prefix resolves to "/", and
`compute_hash` returns -1: nothing is written to standard output and the
value returned is 0. -/
theorem hashdump_main_returns_zero_on_failure :
    (collab_failing.compute_hash true "/etc/passwd".toList).1 = -1 ∧
    hashdump_main env_plain collab_failing [] ["/etc/passwd".toList] false Globals.init
      = MainResult.returned 0 [] false
          (Globals.mk none (Ptr.str "/".toList) none none none none none none) := by
  refine ⟨rfl, rfl⟩

/-! ### Absolute paths -/

theorem set_state_dir_absolute (env : Env) (path : Option CStr) (g g1 : Globals) (ret : Bool)
    (hstate : env.STATE_DIR.head? = some '/')
    (hinv : ∀ s, g.state_dir = some s → s.head? = some '/')
    (h : set_state_dir env path g = (ret, g1)) :
    Globals.path_prefix g1 = Globals.path_prefix g ∧
      ∀ s, g1.state_dir = some s → s.head? = some '/' := by
  unfold set_state_dir at h
  split at h
  · split at h
    · simp only [Prod.mk.injEq] at h
      rw [← h.2]
      exact ⟨rfl, hinv⟩
    · rename_i p hp
      simp only [Prod.mk.injEq] at h
      rw [← h.2]
      refine ⟨rfl, ?_⟩
      intro s hs
      simp only [Option.some.injEq] at hs
      rw [← hs]
      simpa using hp
  · split at h
    · simp only [Prod.mk.injEq] at h
      rw [← h.2]
      exact ⟨rfl, hinv⟩
    · simp only [Prod.mk.injEq] at h
      rw [← h.2]
      refine ⟨rfl, ?_⟩
      intro s hs
      simp only [Option.some.injEq] at hs
      rw [← hs]
      exact hstate

theorem head?_append_of_head? (a b : CStr) (h : a.head? = some '/') :
    (a ++ b).head? = some '/' := by
  cases a with
  | nil => simp at h
  | cons x xs => simpa using h

theorem set_path_prefix_absolute_step (env : Env) (c : CStr) (path : Option CStr)
    (g g1 : Globals) (ret : Bool) (hcwd : env.cwd = some c) (hc : c.head? = some '/')
    (hinv : Globals.path_prefix g ≠ Ptr.freed ∧
      ∀ s, Globals.path_prefix g = Ptr.str s → s.head? = some '/' ∧ s.getLast? = some '/')
    (h : set_path_prefix env path g = some (ret, g1)) :
    g1.state_dir = g.state_dir ∧ Globals.path_prefix g1 ≠ Ptr.freed ∧
      ∀ s, Globals.path_prefix g1 = Ptr.str s → s.head? = some '/' ∧ s.getLast? = some '/' := by
  have hfr := set_path_prefix_frame env path g g1 ret h
  refine ⟨by rw [hfr], ?_⟩
  unfold set_path_prefix at h
  simp only [stat_path_prefix_eq] at h
  cases path with
  | none =>
    simp only at h
    cases hp : Globals.path_prefix g with
    | null =>
      rw [hp] at h
      simp only [Option.some.injEq, Prod.mk.injEq] at h
      rw [← h.2]
      refine ⟨by simp, ?_⟩
      intro s hs
      simp only [Ptr.str.injEq] at hs
      rw [← hs]
      exact ⟨rfl, rfl⟩
    | freed => exact absurd hp hinv.1
    | str s0 =>
      rw [hp] at h
      simp only [Option.some.injEq, Prod.mk.injEq] at h
      rw [← h.2, hp]
      refine ⟨by simp, ?_⟩
      intro s hs
      exact hinv.2 s (by rw [hp]; exact hs)
  | some p =>
    simp only at h
    have key : ∀ tmp : CStr, tmp.head? = some '/' →
        (if tmp.length = 0 ∨ tmp.getLast? ≠ some '/' then tmp ++ ['/'] else tmp).head?
            = some '/' ∧
        (if tmp.length = 0 ∨ tmp.getLast? ≠ some '/' then tmp ++ ['/'] else tmp).getLast?
            = some '/' := by
      intro tmp htmp
      by_cases hcond : tmp.length = 0 ∨ tmp.getLast? ≠ some '/'
      · rw [if_pos hcond]
        exact ⟨head?_append_of_head? tmp ['/'] htmp, by simp [List.getLast?_append]⟩
      · rw [if_neg hcond]
        refine ⟨htmp, ?_⟩
        by_contra hl
        exact hcond (Or.inr hl)
    have hres : ∀ tmp : CStr,
        (if p.head? ≠ some '/' then
            match env.cwd with
            | none => none
            | some cwd => some (cwd ++ '/' :: p)
          else some p) = some tmp → tmp.head? = some '/' := by
      intro tmp ht
      by_cases hrel : p.head? ≠ some '/'
      · rw [if_pos hrel, hcwd] at ht
        simp only [Option.some.injEq] at ht
        rw [← ht]
        exact head?_append_of_head? c _ hc
      · rw [if_neg hrel] at ht
        simp only [Option.some.injEq] at ht
        rw [← ht]
        simpa using hrel
    split at h
    · exact absurd h (by simp)
    · split at h
      · rename_i hnone
        by_cases hrel : p.head? ≠ some '/'
        · rw [if_pos hrel, hcwd] at hnone
          exact absurd hnone (by simp)
        · rw [if_neg hrel] at hnone
          exact absurd hnone (by simp)
      · rename_i tmp htmp
        simp only [Option.some.injEq, Prod.mk.injEq] at h
        rw [← h.2]
        refine ⟨by simp, ?_⟩
        intro s hs
        simp only [Ptr.str.injEq] at hs
        rw [← hs]
        exact key tmp (hres tmp htmp)

theorem init_version_url_final (env : Env) (g g1 : Globals) (k : Globals → InitResult)
    (hk : ∀ g2 g3, (k g2).final = some g3 →
      g3.state_dir = g2.state_dir ∧ Globals.path_prefix g3 = Globals.path_prefix g2)
    (h : (init_version_url env g k).final = some g1) :
    g1.state_dir = g.state_dir ∧ Globals.path_prefix g1 = Globals.path_prefix g := by
  have hsame : ∀ url r ga, set_version_url env url g = some (r, ga) →
      ga.state_dir = g.state_dir ∧ Globals.path_prefix ga = Globals.path_prefix g := by
    intro url r ga hs
    rcases set_version_url_cases env url g ga r hs with h1 | ⟨_, h1 | ⟨v, h1⟩⟩
    · rw [h1.2]; exact ⟨rfl, rfl⟩
    · rw [h1]; exact ⟨rfl, rfl⟩
    · rw [h1]; exact ⟨rfl, rfl⟩
  unfold init_version_url at h
  cases hs : set_version_url env none g with
  | none => simp [hs, InitResult.final] at h
  | some p =>
    obtain ⟨r, ga⟩ := p
    have ha := hsame none r ga hs
    rw [hs] at h
    simp only at h
    by_cases hr : r ≠ 0
    · rw [if_pos hr] at h
      cases hc : env.VERSIONURL with
      | none =>
        rw [hc] at h
        simp only [InitResult.final, Option.some.injEq] at h
        rw [← h]; exact ha
      | some u =>
        rw [hc] at h
        simp only at h
        cases hs2 : set_version_url env (some u) ga with
        | none => simp [hs2, InitResult.final] at h
        | some q =>
          obtain ⟨r2, gb⟩ := q
          have hb : gb.state_dir = ga.state_dir ∧
              Globals.path_prefix gb = Globals.path_prefix ga := by
            rcases set_version_url_cases env (some u) ga gb r2 hs2 with
              h1 | ⟨_, h1 | ⟨v, h1⟩⟩
            · rw [h1.2]; exact ⟨rfl, rfl⟩
            · rw [h1]; exact ⟨rfl, rfl⟩
            · rw [h1]; exact ⟨rfl, rfl⟩
          rw [hs2] at h
          simp only at h
          by_cases hr2 : r2 ≠ 0
          · rw [if_pos hr2] at h
            simp only [InitResult.final, Option.some.injEq] at h
            rw [← h]
            exact ⟨hb.1.trans ha.1, hb.2.trans ha.2⟩
          · rw [if_neg hr2] at h
            have := hk gb g1 h
            exact ⟨this.1.trans (hb.1.trans ha.1), this.2.trans (hb.2.trans ha.2)⟩
    · rw [if_neg hr] at h
      have := hk ga g1 h
      exact ⟨this.1.trans ha.1, this.2.trans ha.2⟩

theorem init_content_url_final (env : Env) (g g1 : Globals) (k : Globals → InitResult)
    (hk : ∀ g2 g3, (k g2).final = some g3 →
      g3.state_dir = g2.state_dir ∧ Globals.path_prefix g3 = Globals.path_prefix g2)
    (h : (init_content_url env g k).final = some g1) :
    g1.state_dir = g.state_dir ∧ Globals.path_prefix g1 = Globals.path_prefix g := by
  unfold init_content_url at h
  cases hs : set_content_url env none g with
  | none => simp [hs, InitResult.final] at h
  | some p =>
    obtain ⟨r, ga⟩ := p
    have ha : ga.state_dir = g.state_dir ∧ Globals.path_prefix ga = Globals.path_prefix g := by
      rcases set_content_url_cases env none g ga r hs with h1 | ⟨_, h1 | ⟨v, h1⟩⟩
      · rw [h1.2]; exact ⟨rfl, rfl⟩
      · rw [h1]; exact ⟨rfl, rfl⟩
      · rw [h1]; exact ⟨rfl, rfl⟩
    rw [hs] at h
    simp only at h
    by_cases hr : r ≠ 0
    · rw [if_pos hr] at h
      cases hc : env.CONTENTURL with
      | none =>
        rw [hc] at h
        simp only [InitResult.final, Option.some.injEq] at h
        rw [← h]; exact ha
      | some u =>
        rw [hc] at h
        simp only at h
        cases hs2 : set_content_url env (some u) ga with
        | none => simp [hs2, InitResult.final] at h
        | some q =>
          obtain ⟨r2, gb⟩ := q
          have hb : gb.state_dir = ga.state_dir ∧
              Globals.path_prefix gb = Globals.path_prefix ga := by
            rcases set_content_url_cases env (some u) ga gb r2 hs2 with
              h1 | ⟨_, h1 | ⟨v, h1⟩⟩
            · rw [h1.2]; exact ⟨rfl, rfl⟩
            · rw [h1]; exact ⟨rfl, rfl⟩
            · rw [h1]; exact ⟨rfl, rfl⟩
          rw [hs2] at h
          simp only at h
          by_cases hr2 : r2 ≠ 0
          · rw [if_pos hr2] at h
            simp only [InitResult.final, Option.some.injEq] at h
            rw [← h]
            exact ⟨hb.1.trans ha.1, hb.2.trans ha.2⟩
          · rw [if_neg hr2] at h
            have := hk gb g1 h
            exact ⟨this.1.trans (hb.1.trans ha.1), this.2.trans (hb.2.trans ha.2)⟩
    · rw [if_neg hr] at h
      have := hk ga g1 h
      exact ⟨this.1.trans ha.1, this.2.trans ha.2⟩

theorem init_format_string_final (env : Env) (g g1 : Globals) (k : Globals → InitResult)
    (hk : ∀ g2 g3, (k g2).final = some g3 →
      g3.state_dir = g2.state_dir ∧ Globals.path_prefix g3 = Globals.path_prefix g2)
    (h : (init_format_string env g k).final = some g1) :
    g1.state_dir = g.state_dir ∧ Globals.path_prefix g1 = Globals.path_prefix g := by
  have hsame : ∀ value gx r gy, set_format_string env value gx = some (r, gy) →
      gy.state_dir = gx.state_dir ∧ Globals.path_prefix gy = Globals.path_prefix gx := by
    intro value gx r gy hs
    rcases set_format_string_cases env value gx gy r hs with h1 | ⟨v, h1⟩
    · rw [h1]; exact ⟨rfl, rfl⟩
    · rw [h1]; exact ⟨rfl, rfl⟩
  unfold init_format_string at h
  cases hs : set_format_string env none g with
  | none => simp [hs, InitResult.final] at h
  | some p =>
    obtain ⟨ok, ga⟩ := p
    have ha := hsame none g ok ga hs
    rw [hs] at h
    simp only at h
    cases ok with
    | true =>
      simp only [Bool.not_true, Bool.false_eq_true, if_false] at h
      have := hk ga g1 h
      exact ⟨this.1.trans ha.1, this.2.trans ha.2⟩
    | false =>
      simp only [Bool.not_false, if_true] at h
      cases hc : env.FORMATID with
      | none =>
        rw [hc] at h
        simp only [InitResult.final, Option.some.injEq] at h
        rw [← h]; exact ha
      | some f =>
        rw [hc] at h
        simp only at h
        cases hs2 : set_format_string env (some f) ga with
        | none => simp [hs2, InitResult.final] at h
        | some q =>
          obtain ⟨r2, gb⟩ := q
          have hb := hsame (some f) ga r2 gb hs2
          rw [hs2] at h
          simp only at h
          have := hk gb g1 h
          exact ⟨this.1.trans (hb.1.trans ha.1), this.2.trans (hb.2.trans ha.2)⟩

theorem init_defaults_final (env : Env) (g g1 : Globals)
    (h : (init_defaults env g).final = some g1) :
    g1.state_dir = g.state_dir ∧ Globals.path_prefix g1 = Globals.path_prefix g := by
  unfold init_defaults at h
  refine init_format_string_final env g g1 _ ?_ h
  intro g3 x3 h3
  refine init_version_url_final env g3 x3 _ ?_ h3
  intro g4 x4 h4
  refine init_content_url_final env g4 x4 _ ?_ h4
  intro g5 x5 h5
  simp only [InitResult.final, set_local_download, Option.some.injEq] at h5
  rw [← h5]
  split
  · rcases set_cert_path_cases env none g5 with hcp | ⟨v, hcp⟩ <;>
      (rw [hcp]; exact ⟨rfl, rfl⟩)
  · exact ⟨rfl, rfl⟩

/-- C18. With `STATE_DIR` and the current directory absolute, in every state
that calls of `set_state_dir`, `set_path_prefix` and `init_globals`,
successful or not, can produce from the initial state, `state_dir` when set
starts with `/`, and `path_prefix` is unset or a live string that starts
with `/` and ends with `/`. -/
theorem absolute_path_invariant (env : Env) (c : CStr)
    (hstate : env.STATE_DIR.head? = some '/') (hcwd : env.cwd = some c)
    (hc : c.head? = some '/') (g : Globals) (h : ReachablePaths env g) :
    (∀ s, g.state_dir = some s → s.head? = some '/') ∧
    Globals.path_prefix g ≠ Ptr.freed ∧
    (∀ s, Globals.path_prefix g = Ptr.str s → s.head? = some '/' ∧ s.getLast? = some '/') := by
  induction h with
  | init =>
    refine ⟨?_, ?_, ?_⟩
    · intro s hs; simp [Globals.init] at hs
    · simp [Globals.init]
    · intro s hs; simp [Globals.init] at hs
  | state_dir path ret g g1 _ hstep ih =>
    obtain ⟨hp, hs⟩ := set_state_dir_absolute env path g g1 ret hstate ih.1 hstep
    refine ⟨hs, ?_, ?_⟩
    · rw [hp]; exact ih.2.1
    · rw [hp]; exact ih.2.2
  | prefix_step path ret g g1 _ hstep ih =>
    obtain ⟨hs, hp⟩ := set_path_prefix_absolute_step env c path g g1 ret hcwd hc ih.2 hstep
    refine ⟨?_, hp⟩
    rw [hs]; exact ih.1
  | init_globals g g1 _ hstep ih =>
    unfold init_globals at hstep
    cases hsd : set_state_dir env none g with
    | mk r ga =>
      obtain ⟨hpa, hsa⟩ := set_state_dir_absolute env none g ga r hstate ih.1 hsd
      have hinva : Globals.path_prefix ga ≠ Ptr.freed ∧
          ∀ s, Globals.path_prefix ga = Ptr.str s →
            s.head? = some '/' ∧ s.getLast? = some '/' := by
        rw [hpa]; exact ih.2
      rw [hsd] at hstep
      cases r with
      | false =>
        simp only [InitResult.final, Option.some.injEq] at hstep
        rw [← hstep]
        exact ⟨hsa, hinva⟩
      | true =>
        simp only at hstep
        cases hsp : set_path_prefix env none ga with
        | none => simp [hsp, InitResult.final] at hstep
        | some q =>
          obtain ⟨r2, gb⟩ := q
          obtain ⟨hsb, hpb⟩ :=
            set_path_prefix_absolute_step env c none ga gb r2 hcwd hc hinva hsp
          rw [hsp] at hstep
          cases r2 with
          | false =>
            simp only [InitResult.final, Option.some.injEq] at hstep
            rw [← hstep]
            refine ⟨?_, hpb⟩
            rw [hsb]; exact hsa
          | true =>
            simp only at hstep
            obtain ⟨h1, h2⟩ := init_defaults_final env gb g1 hstep
            refine ⟨?_, ?_, ?_⟩
            · rw [h1, hsb]; exact hsa
            · rw [h2]; exact hpb.1
            · rw [h2]; exact hpb.2

/-- Witness of C18: after `set_state_dir(NULL)` and `set_path_prefix("tmp")`
in "/home/user", `state_dir` is "/var/lib/swupd" and `path_prefix` is
"/home/user/tmp/". -/
theorem absolute_path_invariant_witness :
    (∀ s, (Globals.mk none (Ptr.str "/home/user/tmp/".toList) none none
        (some "/var/lib/swupd".toList) none none none).state_dir = some s →
      s.head? = some '/') ∧
    Globals.path_prefix (Globals.mk none (Ptr.str "/home/user/tmp/".toList) none none
        (some "/var/lib/swupd".toList) none none none) ≠ Ptr.freed ∧
    (∀ s, Globals.path_prefix (Globals.mk none (Ptr.str "/home/user/tmp/".toList) none none
        (some "/var/lib/swupd".toList) none none none) = Ptr.str s →
      s.head? = some '/' ∧ s.getLast? = some '/') :=
  absolute_path_invariant env_plain "/home/user".toList rfl rfl rfl
    (Globals.mk none (Ptr.str "/home/user/tmp/".toList) none none
      (some "/var/lib/swupd".toList) none none none)
    (ReachablePaths.prefix_step (some "tmp".toList) true
      (Globals.mk none Ptr.null none none (some "/var/lib/swupd".toList) none none none) _
      (ReachablePaths.state_dir none true Globals.init _ ReachablePaths.init rfl) rfl)

end Swupd
